import Mathlib

/-!
# ARM9 memory map viewer (`main.cpp`)

A shallow embedding of the viewer's tick handler `Vblank`, of `reset_viewer`
and of `refresh_display`, followed by theorems about them.

* The process-wide `volatile` globals become the fields of `State`.
* `uint32_t` values are natural numbers; every place where the C code can wrap
  is written with an explicit `% 2 ^ 32`.
* The keypad sample returned by `keysCurrent()` and the memory read through the
  raw pointer are inputs of a tick.
* Console output is the list of characters written by `iprintf`.
* `swiSoftReset()` does not return; a tick that reaches it ends in
  `TickResult.softReset`.
-/

namespace NdsMmap

/-! ## Platform constants -/

/-- The keypad buttons the viewer reads. -/
inductive Button where
  | A | B | SELECT | START | RIGHT | LEFT | UP | DOWN | R | L | X
  deriving DecidableEq, Fintype

/-- Bit positions of the keypad buttons. The masks `KEY_A` ... `KEY_X` come from
the platform header `nds.h`, which is not part of the repository; each is a
single bit `BIT(n)`, and the positions are a parameter of the model. -/
structure KeyBits where
  bit : Button → Nat

/-- A key map is well formed when the buttons are pairwise different bits of a
32-bit word. -/
def KeyBits.WF (K : KeyBits) : Prop :=
  (∀ a b : Button, K.bit a = K.bit b → a = b) ∧ ∀ a : Button, K.bit a < 32

instance (K : KeyBits) : Decidable K.WF := by
  unfold KeyBits.WF
  infer_instance

/-- The assignment made by the platform header: `KEY_A = BIT(0)`, `KEY_B = BIT(1)`,
`KEY_SELECT = BIT(2)`, `KEY_START = BIT(3)`, `KEY_RIGHT = BIT(4)`,
`KEY_LEFT = BIT(5)`, `KEY_UP = BIT(6)`, `KEY_DOWN = BIT(7)`, `KEY_R = BIT(8)`,
`KEY_L = BIT(9)`, `KEY_X = BIT(10)`. -/
def ndsKeys : KeyBits where
  bit
    | Button.A => 0
    | Button.B => 1
    | Button.SELECT => 2
    | Button.START => 3
    | Button.RIGHT => 4
    | Button.LEFT => 5
    | Button.UP => 6
    | Button.DOWN => 7
    | Button.R => 8
    | Button.L => 9
    | Button.X => 10

/-- The `BIT(n)` of the platform header, that is `1 << n`. -/
def BIT (n : Nat) : Nat := 1 <<< n

/-- The mask of a button. -/
def KeyBits.mask (K : KeyBits) (b : Button) : Nat := BIT (K.bit b)

abbrev KEY_A (K : KeyBits) : Nat := K.mask Button.A
abbrev KEY_B (K : KeyBits) : Nat := K.mask Button.B
abbrev KEY_SELECT (K : KeyBits) : Nat := K.mask Button.SELECT
abbrev KEY_START (K : KeyBits) : Nat := K.mask Button.START
abbrev KEY_RIGHT (K : KeyBits) : Nat := K.mask Button.RIGHT
abbrev KEY_LEFT (K : KeyBits) : Nat := K.mask Button.LEFT
abbrev KEY_UP (K : KeyBits) : Nat := K.mask Button.UP
abbrev KEY_DOWN (K : KeyBits) : Nat := K.mask Button.DOWN
abbrev KEY_R (K : KeyBits) : Nat := K.mask Button.R
abbrev KEY_L (K : KeyBits) : Nat := K.mask Button.L
abbrev KEY_X (K : KeyBits) : Nat := K.mask Button.X

/-! ## 32-bit arithmetic -/

/-- Unsigned 32-bit addition. -/
def add32 (a b : Nat) : Nat := (a + b) % 2 ^ 32

/-- Unsigned 32-bit subtraction. -/
def sub32 (a b : Nat) : Nat := (a + (2 ^ 32 - b % 2 ^ 32)) % 2 ^ 32

/-- Bitwise complement of a 32-bit word. -/
def not32 (x : Nat) : Nat := 0xFFFFFFFF ^^^ (x % 2 ^ 32)

/-- The increment of a signed 32-bit counter, wrapping as the ARM9 does. -/
def incInt32 (x : Int) : Int :=
  if x + 1 > 2147483647 then -2147483648 else x + 1

/-! ## Program state -/

/-- The number of words in the display buffer (`const int buffer_size = 16`). -/
abbrev buffer_size : Nat := 16

/-- The globals of `main.cpp`. -/
structure State where
  running : Bool
  frame : Int
  key_old : Nat
  key_new : Nat
  key_delta : Nat
  nibble_select : Nat
  buffer : Fin buffer_size → Nat
  base_address : Nat
  update : Bool

/-- The assignment `buffer[i] = v`. -/
def State.setBuffer (s : State) (i : Nat) (v : Nat) : State :=
  { s with buffer := fun j => if j.val = i then v else s.buffer j }

/-! ## Console output -/

/-- The text written by `igotoxy(x, y)`: the escape sequence `ESC [ x ; y H`,
with both `uint8_t` arguments printed in decimal. -/
def igotoxy (x y : Nat) : List Char :=
  [Char.ofNat 0x1b, '['] ++ Nat.toDigits 10 (x % 256) ++ [';'] ++
    Nat.toDigits 10 (y % 256) ++ ['H']

/-- One hexadecimal digit, upper case for `%X` and lower case for `%x`. -/
def hexDigit (upper : Bool) (d : Nat) : Char :=
  if d < 10 then Char.ofNat (48 + d)
  else Char.ofNat ((if upper then 55 else 87) + d)

/-- The conversions `%08lX` (upper) and `%08lx` of a 32-bit `unsigned long`:
eight zero-padded digits, most significant first. -/
def hex8 (upper : Bool) (v : Nat) : List Char :=
  [7, 6, 5, 4, 3, 2, 1, 0].map fun k => hexDigit upper ((v >>> (4 * k)) % 16)

/-- Modelled from the spec: `isprint` of `ctype.h`, which is not part of the
repository; a character is printable when its code is in `0x20 .. 0x7E`. -/
def isprint (c : Nat) : Bool := 0x20 ≤ c && c ≤ 0x7E

/-- The character shown for byte `x` of the word `w` (lines 58-61). -/
def displayChar (w : Nat) (x : Nat) : Char :=
  let ch := (w >>> (x <<< 3)) &&& 0x7F
  if !isprint ch then '.' else Char.ofNat ch

/-- The text of one row of the dump (the body of the outer loop, lines 49-63). -/
def displayRow (s : State) (row : Fin buffer_size) : List Char :=
  let head := hex8 true (add32 s.base_address (row.val <<< 2)) ++ " : ".toList ++
    hex8 true (s.buffer row) ++ " | ".toList
  let chars := (List.range 4).foldl (fun out x => out ++ [displayChar (s.buffer row) x]) []
  head ++ chars ++ ['\n']

/-- The routine `refresh_display` (lines 44-65): the state it leaves and the text
it writes. -/
def refresh_display (s : State) : State × List Char :=
  (s, (List.finRange buffer_size).foldl (fun out row => out ++ displayRow s row)
        (igotoxy 3 0))

/-- The status line `"Base: %08lx Nibble:%lu\n"` (line 158). -/
def statusLine (s : State) : List Char :=
  "Base: ".toList ++ hex8 false s.base_address ++ " Nibble:".toList ++
    Nat.toDigits 10 (s.nibble_select % 2 ^ 32) ++ ['\n']

/-! ## Reset -/

/-- The routine `reset_viewer` (lines 67-76). -/
def reset_viewer (s : State) : State :=
  let s := { s with running := true }
  let s := { s with frame := 0 }
  let s := { s with nibble_select := 0 }
  let s := { s with base_address := 0xffff0000 }
  let s := (List.range 16).foldl (fun t i => t.setBuffer i 0xdeadbeef) s
  { s with update := true }

/-! ## The tick handler, block by block -/

/-- Lines 84-91, "Update key state": the new sample, the raw edge mask and the
toggle substitution while `KEY_X` is held. -/
def updateKeyState (K : KeyBits) (keysCurrent : Nat) (s : State) : State :=
  let s := { s with key_old := s.key_new }
  let s := { s with key_new := keysCurrent }
  let s := { s with key_delta := (s.key_old ^^^ s.key_new) &&& s.key_new }
  if s.key_new &&& KEY_X K ≠ 0 then
    { s with key_delta := s.key_delta ^^^ (s.key_new &&& not32 (KEY_X K)) }
  else s

/-- The address step `0x01 << (nibble_select << 2)` (lines 102 and 108). For a
shift of 32 or more C leaves the value undefined; `nibble_select` never
exceeds 7. -/
def nibbleStep (n : Nat) : Nat := (1 <<< ((n <<< 2) % 2 ^ 32)) % 2 ^ 32

/-- Lines 94-95. -/
def onLeft (K : KeyBits) (s : State) : State :=
  if s.key_delta &&& KEY_LEFT K ≠ 0 then
    { s with nibble_select := add32 s.nibble_select 1 &&& 7 }
  else s

/-- Lines 96-97. -/
def onRight (K : KeyBits) (s : State) : State :=
  if s.key_delta &&& KEY_RIGHT K ≠ 0 then
    { s with nibble_select := sub32 s.nibble_select 1 &&& 7 }
  else s

/-- Lines 100-103. -/
def onDown (K : KeyBits) (s : State) : State :=
  if s.key_delta &&& KEY_DOWN K ≠ 0 then
    { s with base_address := sub32 s.base_address (nibbleStep s.nibble_select) }
  else s

/-- Lines 106-109. -/
def onUp (K : KeyBits) (s : State) : State :=
  if s.key_delta &&& KEY_UP K ≠ 0 then
    { s with base_address := add32 s.base_address (nibbleStep s.nibble_select) }
  else s

/-- Lines 112-115. -/
def onB (K : KeyBits) (s : State) : State :=
  if s.key_delta &&& KEY_B K ≠ 0 then reset_viewer s else s

/-- Lines 118-128. The sixteen words are read through `p = (uint32 *)base_address`,
so word `i` comes from address `base_address + 4 * i`; `mem` is the content of
memory during the tick, a function of the address that the writes to `buffer`
do not change. -/
def onA (K : KeyBits) (mem : Nat → Nat) (s : State) : State :=
  if s.key_delta &&& KEY_A K ≠ 0 then
    let s := (List.range 16).foldl (fun t i => t.setBuffer i 0xdeadbeef) s
    let p := s.base_address
    let s := (List.range 16).foldl (fun t i => t.setBuffer i (mem (add32 p (4 * i)))) s
    { s with update := true }
  else s

/-- Lines 131-135. -/
def onR (K : KeyBits) (s : State) : State :=
  if s.key_delta &&& KEY_R K ≠ 0 then
    let s := { s with base_address := add32 s.base_address 0x10 }
    { s with update := true }
  else s

/-- Lines 138-142. -/
def onL (K : KeyBits) (s : State) : State :=
  if s.key_delta &&& KEY_L K ≠ 0 then
    let s := { s with base_address := sub32 s.base_address 0x10 }
    { s with update := true }
  else s

/-- Lines 151-154. -/
def onSelect (K : KeyBits) (s : State) : State :=
  if s.key_delta &&& KEY_SELECT K ≠ 0 then { s with running := false } else s

/-- How a tick ends: the handler returns, having written `out` to the console,
or it calls `swiSoftReset()` and never returns. -/
inductive TickResult where
  | returned (s : State) (out : List Char)
  | softReset (s : State)

/-- The globals at the end of the tick (at the soft reset, when that ends it). -/
def TickResult.state : TickResult → State
  | TickResult.returned s _ => s
  | TickResult.softReset s => s

/-- The text written during the tick. -/
def TickResult.output : TickResult → List Char
  | TickResult.returned _ out => out
  | TickResult.softReset _ => []

/-- The state before the A block of a tick: lines 81-115. -/
def beforeA (K : KeyBits) (keysCurrent : Nat) (s : State) : State :=
  let s := { s with frame := incInt32 s.frame }
  let s := updateKeyState K keysCurrent s
  let s := onLeft K s
  let s := onRight K s
  let s := onDown K s
  let s := onUp K s
  onB K s

/-- The state at the test of `KEY_START`: lines 81-142. -/
def beforeStart (K : KeyBits) (keysCurrent : Nat) (mem : Nat → Nat) (s : State) : State :=
  let s := beforeA K keysCurrent s
  let s := onA K mem s
  let s := onR K s
  onL K s

/-- The interrupt handler `Vblank` (lines 79-166). -/
def Vblank (K : KeyBits) (keysCurrent : Nat) (mem : Nat → Nat) (s : State) : TickResult :=
  let s := beforeStart K keysCurrent mem s
  if s.key_delta &&& KEY_START K ≠ 0 then TickResult.softReset s
  else
    let s := onSelect K s
    let out := igotoxy 1 0 ++ statusLine s
    if s.update then
      let r := refresh_display s
      TickResult.returned { r.1 with update := false } (out ++ r.2)
    else TickResult.returned s out

/-- A finite run of ticks, each with its keypad sample and memory content; the
run has no final state when a tick ends in the soft reset. -/
def runTicks (K : KeyBits) : State → List (Nat × (Nat → Nat)) → Option State
  | s, [] => some s
  | s, (keys, mem) :: rest =>
    match Vblank K keys mem s with
    | TickResult.returned t _ => runTicks K t rest
    | TickResult.softReset _ => none

/-- The edge masks (`key_delta`) of the ticks of a run, one for each tick that is
executed. -/
def runDeltas (K : KeyBits) : State → List (Nat × (Nat → Nat)) → List Nat
  | _, [] => []
  | s, (keys, mem) :: rest =>
    (Vblank K keys mem s).state.key_delta ::
      match Vblank K keys mem s with
      | TickResult.returned t _ => runDeltas K t rest
      | TickResult.softReset _ => []

/-- The value lines 87-91 leave in `key_delta`, from the previous and the new
sample. -/
def keyDelta (K : KeyBits) (key_old key_new : Nat) : Nat :=
  if key_new &&& KEY_X K ≠ 0 then
    ((key_old ^^^ key_new) &&& key_new) ^^^ (key_new &&& not32 (KEY_X K))
  else (key_old ^^^ key_new) &&& key_new

/-- A start state for examples: all globals zero, as at program start. -/
def zeroState : State :=
  { running := false, frame := 0, key_old := 0, key_new := 0, key_delta := 0,
    nibble_select := 0, buffer := fun _ => 0, base_address := 0, update := false }

/-- The value of an upper-case hexadecimal digit character, `16` for any other
character. -/
def upperHexValue (c : Char) : Nat :=
  if 48 ≤ c.toNat ∧ c.toNat ≤ 57 then c.toNat - 48
  else if 65 ≤ c.toNat ∧ c.toNat ≤ 70 then c.toNat - 55
  else 16

/-- The number a list of hexadecimal digits denotes, most significant first. -/
def ofUpperHex (cs : List Char) : Nat :=
  cs.foldl (fun acc c => 16 * acc + upperHexValue c) 0

/-- The line of the dump as the specification words it: the address
`(baseAddress + 4 * row) mod 2 ^ 32` in eight upper-case hex digits, `" : "`, the
word `buffer[row]` in eight upper-case hex digits, `" | "`, and the four derived
characters, least significant byte first. -/
def specLine (s : State) (row : Fin buffer_size) : List Char :=
  hex8 true ((s.base_address + 4 * row.val) % 2 ^ 32) ++ " : ".toList ++
    hex8 true (s.buffer row) ++ " | ".toList ++
    [displayChar (s.buffer row) 0, displayChar (s.buffer row) 1,
      displayChar (s.buffer row) 2, displayChar (s.buffer row) 3]

/-- The states at the end of the ticks of a run, one for each tick that is
executed (for a tick that ends in the soft reset, the state at the reset). -/
def runStates (K : KeyBits) : State → List (Nat × (Nat → Nat)) → List State
  | _, [] => []
  | s, (keys, mem) :: rest =>
    (Vblank K keys mem s).state ::
      match Vblank K keys mem s with
      | TickResult.returned t _ => runStates K t rest
      | TickResult.softReset _ => []

/-- The value of a lower-case hexadecimal digit character, `16` for any other
character. -/
def lowerHexValue (c : Char) : Nat :=
  if 48 ≤ c.toNat ∧ c.toNat ≤ 57 then c.toNat - 48
  else if 97 ≤ c.toNat ∧ c.toNat ≤ 102 then c.toNat - 87
  else 16

/-- The number a list of lower-case hexadecimal digits denotes, most significant
first. -/
def ofLowerHex (cs : List Char) : Nat :=
  cs.foldl (fun acc c => 16 * acc + lowerHexValue c) 0

/-- Whether a text holds `n` consecutive characters that satisfy `p`, when the `k`
characters just before it already do. -/
def hasRun (p : Char → Bool) (n : Nat) : Nat → List Char → Bool
  | _, [] => false
  | k, c :: l =>
    if p c then (if n ≤ k + 1 then true else hasRun p n (k + 1) l)
    else hasRun p n 0 l

/-! ## Bit masks -/

theorem and_BIT_eq_zero_iff (d i : Nat) : d &&& BIT i = 0 ↔ d.testBit i = false := by
  rw [BIT, Nat.one_shiftLeft]
  constructor
  · intro h
    have := congrArg (fun v => Nat.testBit v i) h
    simpa [Nat.testBit_two_pow_self] using this
  · intro h
    apply Nat.eq_of_testBit_eq
    intro j
    by_cases hij : i = j
    · subst hij; simp [h]
    · simp [Nat.testBit_two_pow_of_ne hij]

theorem and_BIT_ne_zero_iff (d i : Nat) : d &&& BIT i ≠ 0 ↔ d.testBit i = true := by
  rw [Ne, and_BIT_eq_zero_iff]; simp

theorem BIT_testBit (i j : Nat) : (BIT i).testBit j = decide (i = j) := by
  rw [BIT, Nat.one_shiftLeft, Nat.testBit_two_pow]

theorem BIT_lt (i : Nat) (h : i < 32) : BIT i < 2 ^ 32 := by
  rw [BIT, Nat.one_shiftLeft]; exact Nat.pow_lt_pow_right (by decide) h

/-- Two button masks of a well-formed key map overlap only when they are the
same button. -/
theorem mask_and_mask_eq_zero_iff (K : KeyBits) (hK : K.WF) (a b : Button) :
    K.mask a &&& K.mask b = 0 ↔ a ≠ b := by
  rw [KeyBits.mask, KeyBits.mask, and_BIT_eq_zero_iff, BIT_testBit]
  constructor
  · intro h hab
    subst hab
    simp at h
  · intro h
    simp only [decide_eq_false_iff_not]
    intro hab
    exact h (hK.1 a b hab)

theorem mask_and_mask_ne_zero_iff (K : KeyBits) (hK : K.WF) (a b : Button) :
    K.mask a &&& K.mask b ≠ 0 ↔ a = b := by
  rw [Ne, mask_and_mask_eq_zero_iff K hK]; simp

theorem mask_lt (K : KeyBits) (hK : K.WF) (a : Button) : K.mask a < 2 ^ 32 :=
  BIT_lt _ (hK.2 a)

/-! ## The loops that fill the buffer -/

theorem fill_loop (g : Nat → Nat) (n : Nat) (s : State) :
    (List.range n).foldl (fun t i => t.setBuffer i (g i)) s =
      { s with buffer := fun j => if j.val < n then g j.val else s.buffer j } := by
  induction n with
  | zero => simp
  | succ n ih =>
    rw [List.range_succ, List.foldl_append, ih]
    simp only [List.foldl_cons, List.foldl_nil, State.setBuffer]
    congr 1
    funext j
    by_cases h1 : j.val = n
    · simp [h1]
    · by_cases h2 : j.val < n
      · have : j.val < n + 1 := by omega
        simp [h1, h2, this]
      · have : ¬ j.val < n + 1 := by omega
        simp [h1, h2, this]

theorem fill_sixteen (g : Nat → Nat) (s : State) :
    (List.range 16).foldl (fun t i => t.setBuffer i (g i)) s =
      { s with buffer := fun j => g j.val } := by
  rw [fill_loop]
  congr 1
  funext j
  simp [j.isLt]

theorem reset_viewer_eq (s : State) :
    reset_viewer s =
      { s with running := true, frame := 0, nibble_select := 0, base_address := 0xffff0000,
               buffer := fun _ => 0xdeadbeef, update := true } := by
  unfold reset_viewer
  simp only [fill_sixteen (fun _ => 0xdeadbeef)]

/-! ## Each block as a record update -/

theorem updateKeyState_eq (K : KeyBits) (cur : Nat) (s : State) :
    updateKeyState K cur s =
      { s with key_old := s.key_new, key_new := cur, key_delta := keyDelta K s.key_new cur } := by
  unfold updateKeyState keyDelta
  by_cases h : cur &&& KEY_X K = 0 <;> simp [h]

theorem onLeft_eq (K : KeyBits) (s : State) :
    onLeft K s = { s with nibble_select :=
      if s.key_delta &&& KEY_LEFT K ≠ 0 then add32 s.nibble_select 1 &&& 7
      else s.nibble_select } := by
  by_cases h : s.key_delta &&& KEY_LEFT K = 0 <;> simp [onLeft, h]

theorem onRight_eq (K : KeyBits) (s : State) :
    onRight K s = { s with nibble_select :=
      if s.key_delta &&& KEY_RIGHT K ≠ 0 then sub32 s.nibble_select 1 &&& 7
      else s.nibble_select } := by
  by_cases h : s.key_delta &&& KEY_RIGHT K = 0 <;> simp [onRight, h]

theorem onDown_eq (K : KeyBits) (s : State) :
    onDown K s = { s with base_address :=
      if s.key_delta &&& KEY_DOWN K ≠ 0 then sub32 s.base_address (nibbleStep s.nibble_select)
      else s.base_address } := by
  by_cases h : s.key_delta &&& KEY_DOWN K = 0 <;> simp [onDown, h]

theorem onUp_eq (K : KeyBits) (s : State) :
    onUp K s = { s with base_address :=
      if s.key_delta &&& KEY_UP K ≠ 0 then add32 s.base_address (nibbleStep s.nibble_select)
      else s.base_address } := by
  by_cases h : s.key_delta &&& KEY_UP K = 0 <;> simp [onUp, h]

theorem onB_eq (K : KeyBits) (s : State) :
    onB K s =
      { s with
        running := if s.key_delta &&& KEY_B K ≠ 0 then true else s.running
        frame := if s.key_delta &&& KEY_B K ≠ 0 then 0 else s.frame
        nibble_select := if s.key_delta &&& KEY_B K ≠ 0 then 0 else s.nibble_select
        base_address := if s.key_delta &&& KEY_B K ≠ 0 then 0xffff0000 else s.base_address
        buffer := if s.key_delta &&& KEY_B K ≠ 0 then fun _ => 0xdeadbeef else s.buffer
        update := if s.key_delta &&& KEY_B K ≠ 0 then true else s.update } := by
  unfold onB; rw [reset_viewer_eq]
  by_cases h : s.key_delta &&& KEY_B K = 0 <;> simp [h]

theorem onA_eq (K : KeyBits) (mem : Nat → Nat) (s : State) :
    onA K mem s =
      { s with
        buffer := if s.key_delta &&& KEY_A K ≠ 0 then
            fun j => mem (add32 s.base_address (4 * j.val)) else s.buffer
        update := if s.key_delta &&& KEY_A K ≠ 0 then true else s.update } := by
  unfold onA
  simp only [fill_sixteen (fun _ => 0xdeadbeef), fill_sixteen]
  by_cases h : s.key_delta &&& KEY_A K = 0 <;> simp [h]

theorem onR_eq (K : KeyBits) (s : State) :
    onR K s =
      { s with
        base_address := if s.key_delta &&& KEY_R K ≠ 0 then add32 s.base_address 0x10
          else s.base_address
        update := if s.key_delta &&& KEY_R K ≠ 0 then true else s.update } := by
  by_cases h : s.key_delta &&& KEY_R K = 0 <;> simp [onR, h]

theorem onL_eq (K : KeyBits) (s : State) :
    onL K s =
      { s with
        base_address := if s.key_delta &&& KEY_L K ≠ 0 then sub32 s.base_address 0x10
          else s.base_address
        update := if s.key_delta &&& KEY_L K ≠ 0 then true else s.update } := by
  by_cases h : s.key_delta &&& KEY_L K = 0 <;> simp [onL, h]

theorem onSelect_eq (K : KeyBits) (s : State) :
    onSelect K s = { s with running :=
      if s.key_delta &&& KEY_SELECT K ≠ 0 then false else s.running } := by
  by_cases h : s.key_delta &&& KEY_SELECT K = 0 <;> simp [onSelect, h]

theorem refresh_display_fst (s : State) : (refresh_display s).1 = s := rfl

/-! ## The fields of the state during a tick -/

theorem beforeA_key_delta (K : KeyBits) (cur : Nat) (s : State) :
    (beforeA K cur s).key_delta = keyDelta K s.key_new cur := by
  simp only [beforeA, onB_eq, onUp_eq, onDown_eq, onRight_eq, onLeft_eq, updateKeyState_eq]

theorem beforeA_nibble_select (K : KeyBits) (cur : Nat) (s : State) :
    (beforeA K cur s).nibble_select =
      if keyDelta K s.key_new cur &&& KEY_B K ≠ 0 then 0
      else (onRight K (onLeft K (updateKeyState K cur s))).nibble_select := by
  simp only [beforeA, onB_eq, onUp_eq, onDown_eq, onRight_eq, onLeft_eq, updateKeyState_eq]

theorem beforeA_base_address (K : KeyBits) (cur : Nat) (s : State) :
    (beforeA K cur s).base_address =
      if keyDelta K s.key_new cur &&& KEY_B K ≠ 0 then 0xffff0000
      else (onUp K (onDown K (onRight K (onLeft K (updateKeyState K cur s))))).base_address := by
  simp only [beforeA, onB_eq, onUp_eq, onDown_eq, onRight_eq, onLeft_eq, updateKeyState_eq]

theorem beforeA_buffer (K : KeyBits) (cur : Nat) (s : State) :
    (beforeA K cur s).buffer =
      if keyDelta K s.key_new cur &&& KEY_B K ≠ 0 then fun _ => 0xdeadbeef else s.buffer := by
  simp only [beforeA, onB_eq, onUp_eq, onDown_eq, onRight_eq, onLeft_eq, updateKeyState_eq]

theorem beforeA_running (K : KeyBits) (cur : Nat) (s : State) :
    (beforeA K cur s).running =
      if keyDelta K s.key_new cur &&& KEY_B K ≠ 0 then true else s.running := by
  simp only [beforeA, onB_eq, onUp_eq, onDown_eq, onRight_eq, onLeft_eq, updateKeyState_eq]

theorem beforeA_update (K : KeyBits) (cur : Nat) (s : State) :
    (beforeA K cur s).update =
      if keyDelta K s.key_new cur &&& KEY_B K ≠ 0 then true else s.update := by
  simp only [beforeA, onB_eq, onUp_eq, onDown_eq, onRight_eq, onLeft_eq, updateKeyState_eq]

theorem beforeA_key_new (K : KeyBits) (cur : Nat) (s : State) :
    (beforeA K cur s).key_new = cur := by
  simp only [beforeA, onB_eq, onUp_eq, onDown_eq, onRight_eq, onLeft_eq, updateKeyState_eq]

theorem beforeA_key_old (K : KeyBits) (cur : Nat) (s : State) :
    (beforeA K cur s).key_old = s.key_new := by
  simp only [beforeA, onB_eq, onUp_eq, onDown_eq, onRight_eq, onLeft_eq, updateKeyState_eq]

theorem beforeStart_key_old (K : KeyBits) (cur : Nat) (mem : Nat → Nat) (s : State) :
    (beforeStart K cur mem s).key_old = s.key_new := by
  simp only [beforeStart, onA_eq, onR_eq, onL_eq, beforeA_key_old]

theorem beforeStart_key_delta (K : KeyBits) (cur : Nat) (mem : Nat → Nat) (s : State) :
    (beforeStart K cur mem s).key_delta = keyDelta K s.key_new cur := by
  simp only [beforeStart, onA_eq, onR_eq, onL_eq, beforeA_key_delta]

theorem beforeStart_key_new (K : KeyBits) (cur : Nat) (mem : Nat → Nat) (s : State) :
    (beforeStart K cur mem s).key_new = cur := by
  simp only [beforeStart, onA_eq, onR_eq, onL_eq, beforeA_key_new]

theorem beforeStart_nibble_select (K : KeyBits) (cur : Nat) (mem : Nat → Nat) (s : State) :
    (beforeStart K cur mem s).nibble_select = (beforeA K cur s).nibble_select := by
  simp only [beforeStart, onA_eq, onR_eq, onL_eq]

theorem beforeStart_running (K : KeyBits) (cur : Nat) (mem : Nat → Nat) (s : State) :
    (beforeStart K cur mem s).running = (beforeA K cur s).running := by
  simp only [beforeStart, onA_eq, onR_eq, onL_eq]

theorem beforeStart_buffer (K : KeyBits) (cur : Nat) (mem : Nat → Nat) (s : State) :
    (beforeStart K cur mem s).buffer =
      if keyDelta K s.key_new cur &&& KEY_A K ≠ 0 then
        fun j => mem (add32 (beforeA K cur s).base_address (4 * j.val))
      else (beforeA K cur s).buffer := by
  simp only [beforeStart, onA_eq, onR_eq, onL_eq, beforeA_key_delta]

theorem beforeStart_base_address (K : KeyBits) (cur : Nat) (mem : Nat → Nat) (s : State) :
    (beforeStart K cur mem s).base_address =
      if keyDelta K s.key_new cur &&& KEY_L K ≠ 0 then
        sub32 (if keyDelta K s.key_new cur &&& KEY_R K ≠ 0 then
          add32 (beforeA K cur s).base_address 0x10 else (beforeA K cur s).base_address) 0x10
      else if keyDelta K s.key_new cur &&& KEY_R K ≠ 0 then
        add32 (beforeA K cur s).base_address 0x10 else (beforeA K cur s).base_address := by
  simp only [beforeStart, onA_eq, onR_eq, onL_eq, beforeA_key_delta]

theorem beforeStart_update (K : KeyBits) (cur : Nat) (mem : Nat → Nat) (s : State) :
    (beforeStart K cur mem s).update =
      if keyDelta K s.key_new cur &&& KEY_L K ≠ 0 then true
      else if keyDelta K s.key_new cur &&& KEY_R K ≠ 0 then true
      else if keyDelta K s.key_new cur &&& KEY_A K ≠ 0 then true
      else (beforeA K cur s).update := by
  simp only [beforeStart, onA_eq, onR_eq, onL_eq, beforeA_key_delta]

/-- The tick handler in one piece: the soft reset when `KEY_START` is in the edge
mask, otherwise the status line, the dump when `update` is set, and `update`
cleared. -/
theorem Vblank_eq (K : KeyBits) (cur : Nat) (mem : Nat → Nat) (s : State) :
    Vblank K cur mem s =
      if keyDelta K s.key_new cur &&& KEY_START K ≠ 0 then
        TickResult.softReset (beforeStart K cur mem s)
      else
        TickResult.returned { onSelect K (beforeStart K cur mem s) with update := false }
          (igotoxy 1 0 ++ statusLine (onSelect K (beforeStart K cur mem s)) ++
            if (beforeStart K cur mem s).update then
              (refresh_display (onSelect K (beforeStart K cur mem s))).2
            else []) := by
  unfold Vblank
  simp only [beforeStart_key_delta]
  by_cases hS : keyDelta K s.key_new cur &&& KEY_START K = 0
  · by_cases hu : (beforeStart K cur mem s).update = true
    · simp [hS, hu, onSelect_eq, refresh_display_fst]
    · simp [hS, hu, onSelect_eq]
  · simp [hS]

/-! ## The edge mask -/

theorem not32_testBit (x i : Nat) (hx : x < 2 ^ 32) (hi : i < 32) :
    (not32 x).testBit i = !x.testBit i := by
  have h : (4294967295 : Nat) = 2 ^ 32 - 1 := by norm_num
  rw [not32, Nat.mod_eq_of_lt hx, Nat.testBit_xor, h, Nat.testBit_two_pow_sub_one]
  simp [hi]

theorem testBit_of_lt_32 (c i : Nat) (hc : c < 2 ^ 32) (hi : ¬ i < 32) :
    c.testBit i = false := by
  apply Nat.testBit_lt_two_pow
  exact lt_of_lt_of_le hc (Nat.pow_le_pow_right (by decide) (by omega))

/-- The raw edge mask of line 87 is "held now and not held before". -/
theorem raw_edge_eq (p c : Nat) (hp : p < 2 ^ 32) (hc : c < 2 ^ 32) :
    (p ^^^ c) &&& c = c &&& not32 p := by
  apply Nat.eq_of_testBit_eq
  intro i
  by_cases hi : i < 32
  · rw [Nat.testBit_and, Nat.testBit_and, Nat.testBit_xor, not32_testBit p i hp hi]
    cases p.testBit i <;> cases c.testBit i <;> rfl
  · simp [testBit_of_lt_32 c i hc hi]

theorem raw_edge_testBit (p c i : Nat) :
    ((p ^^^ c) &&& c).testBit i = (c.testBit i && !p.testBit i) := by
  rw [Nat.testBit_and, Nat.testBit_xor]
  cases p.testBit i <;> cases c.testBit i <;> rfl

theorem keyDelta_of_not_toggle (K : KeyBits) (p c : Nat) (hX : c &&& KEY_X K = 0) :
    keyDelta K p c = (p ^^^ c) &&& c := by
  simp [keyDelta, hX]

/-- Bit `i` of the edge mask while the toggle button is held: the toggle bit is a
plain edge, every other bit is "held now and held before". -/
theorem keyDelta_toggle_testBit (K : KeyBits) (hK : K.WF) (p c i : Nat) (hi : i < 32)
    (hX : c &&& KEY_X K ≠ 0) :
    (keyDelta K p c).testBit i =
      if i = K.bit Button.X then !p.testBit i else (c.testBit i && p.testBit i) := by
  have hx : c.testBit (K.bit Button.X) = true := (and_BIT_ne_zero_iff _ _).1 hX
  rw [keyDelta, if_pos hX, Nat.testBit_xor, raw_edge_testBit, Nat.testBit_and,
    not32_testBit _ i (mask_lt K hK Button.X) hi, KeyBits.mask, BIT_testBit]
  by_cases h : i = K.bit Button.X
  · subst h
    simp [hx]
  · have h2 : ¬ K.bit Button.X = i := fun e => h e.symm
    simp only [h, h2, if_false, decide_False, Bool.not_false, Bool.and_true]
    cases p.testBit i <;> cases c.testBit i <;> rfl

theorem Vblank_key_delta (K : KeyBits) (cur : Nat) (mem : Nat → Nat) (s : State) :
    (Vblank K cur mem s).state.key_delta = keyDelta K s.key_new cur := by
  rw [Vblank_eq]
  split
  · simp only [TickResult.state, beforeStart_key_delta]
  · simp only [TickResult.state, onSelect_eq, beforeStart_key_delta]

theorem Vblank_key_samples (K : KeyBits) (cur : Nat) (mem : Nat → Nat) (s : State) :
    (Vblank K cur mem s).state.key_old = s.key_new ∧
      (Vblank K cur mem s).state.key_new = cur := by
  rw [Vblank_eq]
  split
  · simp only [TickResult.state, beforeStart_key_old, beforeStart_key_new, and_self]
  · simp only [TickResult.state, onSelect_eq, beforeStart_key_old, beforeStart_key_new,
      and_self]

/-- C1: the raw edge value `(previous XOR current) AND current` equals
`current AND NOT previous` for all 32-bit masks, and in a tick whose sample does
not contain `KEY_X` the final `key_delta` is exactly that value: a button is in
it if and only if it is held in this sample and was not held in the previous
one; the previous sample is `key_new` on entry, and the tick leaves it in
`key_old` and the new sample in `key_new`. -/
theorem edge_detection (K : KeyBits) (s : State) (current : Nat) (mem : Nat → Nat)
    (hp : s.key_new < 2 ^ 32) (hc : current < 2 ^ 32) :
    (s.key_new ^^^ current) &&& current = current &&& not32 s.key_new ∧
    (Vblank K current mem s).state.key_old = s.key_new ∧
    (Vblank K current mem s).state.key_new = current ∧
    (current &&& KEY_X K = 0 →
      (Vblank K current mem s).state.key_delta = current &&& not32 s.key_new ∧
      ∀ i, (Vblank K current mem s).state.key_delta.testBit i =
        (current.testBit i && !s.key_new.testBit i)) := by
  refine ⟨raw_edge_eq _ _ hp hc, (Vblank_key_samples K current mem s).1,
    (Vblank_key_samples K current mem s).2, fun hX => ?_⟩
  rw [Vblank_key_delta, keyDelta_of_not_toggle K _ _ hX]
  exact ⟨raw_edge_eq _ _ hp hc, fun i => raw_edge_testBit _ _ i⟩

/-- C1 at a concrete tick: Up was held, Up and A are held now, and the edge
mask is A alone. -/
theorem edge_detection_witness :
    (64 : Nat) < 2 ^ 32 ∧ (65 : Nat) < 2 ^ 32 ∧ 65 &&& KEY_X ndsKeys = 0 ∧
    (Vblank ndsKeys 65 (fun a => a) { zeroState with key_new := 64 }).state.key_delta =
      65 &&& not32 ({ zeroState with key_new := 64 } : State).key_new :=
  ⟨by decide, by decide, by decide,
    ((edge_detection ndsKeys { zeroState with key_new := 64 } 65 (fun a => a)
      (by decide) (by decide)).2.2.2 (by decide)).1⟩

/-- C2, as the claim states it, fails: with Toggle already held, the tick on
which Up is first pressed has Up held in the sample but not in `key_delta`, and
the Up transition does not fire. -/
theorem toggle_first_press_not_in_delta :
    (KEY_X ndsKeys ||| KEY_UP ndsKeys) &&& KEY_X ndsKeys ≠ 0 ∧
    (KEY_X ndsKeys ||| KEY_UP ndsKeys) &&& KEY_UP ndsKeys ≠ 0 ∧
    (Vblank ndsKeys (KEY_X ndsKeys ||| KEY_UP ndsKeys) (fun a => a)
      { zeroState with key_new := KEY_X ndsKeys }).state.key_delta &&& KEY_UP ndsKeys = 0 ∧
    (Vblank ndsKeys (KEY_X ndsKeys ||| KEY_UP ndsKeys) (fun a => a)
      { zeroState with key_new := KEY_X ndsKeys }).state.base_address = 0 := by
  decide

/-- C2, amended: while the sample contains `KEY_X`, a button other than Toggle
that is held in the sample is in the final `key_delta` of the tick if and only
if it was also held in the previous sample. -/
theorem toggle_mode_delta (K : KeyBits) (hK : K.WF) (s : State) (current : Nat)
    (mem : Nat → Nat) (b : Button)
    (hX : current &&& KEY_X K ≠ 0) (hb : b ≠ Button.X)
    (hheld : current &&& K.mask b ≠ 0) :
    ((Vblank K current mem s).state.key_delta &&& K.mask b ≠ 0 ↔
      s.key_new &&& K.mask b ≠ 0) := by
  have hne : ¬ K.bit b = K.bit Button.X := fun e => hb (hK.1 _ _ e)
  have hc : current.testBit (K.bit b) = true := (and_BIT_ne_zero_iff _ _).1 hheld
  rw [Vblank_key_delta, KeyBits.mask, and_BIT_ne_zero_iff, and_BIT_ne_zero_iff,
    keyDelta_toggle_testBit K hK _ _ _ (hK.2 b) hX, if_neg hne, hc]
  simp

/-- C2 amended, at a concrete tick: Toggle and Up held in both samples, so Up is
in the edge mask. -/
theorem toggle_mode_delta_witness :
    ndsKeys.WF ∧ 1088 &&& KEY_X ndsKeys ≠ 0 ∧ Button.UP ≠ Button.X ∧
    1088 &&& ndsKeys.mask Button.UP ≠ 0 ∧
    ((Vblank ndsKeys 1088 (fun a => a) { zeroState with key_new := 1088 }).state.key_delta
        &&& ndsKeys.mask Button.UP ≠ 0 ↔
      ({ zeroState with key_new := 1088 } : State).key_new &&& ndsKeys.mask Button.UP ≠ 0) :=
  ⟨by decide, by decide, by decide, by decide,
    toggle_mode_delta ndsKeys (by decide) { zeroState with key_new := 1088 } 1088
      (fun a => a) Button.UP (by decide) (by decide) (by decide)⟩

/-! ## The state at the end of a tick -/

theorem Vblank_nibble_select (K : KeyBits) (cur : Nat) (mem : Nat → Nat) (s : State) :
    (Vblank K cur mem s).state.nibble_select = (beforeA K cur s).nibble_select := by
  rw [Vblank_eq]
  split
  · simp only [TickResult.state, beforeStart_nibble_select]
  · simp only [TickResult.state, onSelect_eq, beforeStart_nibble_select]

theorem Vblank_base_address (K : KeyBits) (cur : Nat) (mem : Nat → Nat) (s : State) :
    (Vblank K cur mem s).state.base_address = (beforeStart K cur mem s).base_address := by
  rw [Vblank_eq]
  split
  · simp only [TickResult.state]
  · simp only [TickResult.state, onSelect_eq]

theorem Vblank_buffer (K : KeyBits) (cur : Nat) (mem : Nat → Nat) (s : State) :
    (Vblank K cur mem s).state.buffer = (beforeStart K cur mem s).buffer := by
  rw [Vblank_eq]
  split
  · simp only [TickResult.state]
  · simp only [TickResult.state, onSelect_eq]

theorem Vblank_key_new (K : KeyBits) (cur : Nat) (mem : Nat → Nat) (s : State) :
    (Vblank K cur mem s).state.key_new = cur := by
  rw [Vblank_eq]
  split
  · simp only [TickResult.state, beforeStart_key_new]
  · simp only [TickResult.state, onSelect_eq, beforeStart_key_new]

theorem Vblank_running (K : KeyBits) (cur : Nat) (mem : Nat → Nat) (s : State)
    (hS : keyDelta K s.key_new cur &&& KEY_START K = 0) :
    (Vblank K cur mem s).state.running =
      if keyDelta K s.key_new cur &&& KEY_SELECT K ≠ 0 then false
      else (beforeA K cur s).running := by
  rw [Vblank_eq]
  simp only [hS, ne_eq, not_true_eq_false, if_false, TickResult.state, onSelect_eq,
    beforeStart_key_delta, beforeStart_running]

/-- A tick without `KEY_START` in its edge mask returns. -/
theorem Vblank_returned (K : KeyBits) (cur : Nat) (mem : Nat → Nat) (s : State)
    (hS : keyDelta K s.key_new cur &&& KEY_START K = 0) :
    Vblank K cur mem s =
      TickResult.returned (Vblank K cur mem s).state (Vblank K cur mem s).output := by
  rw [Vblank_eq]
  simp only [hS, ne_eq, not_true_eq_false, if_false, TickResult.state, TickResult.output]

theorem runTicks_cons (K : KeyBits) (cur : Nat) (mem : Nat → Nat) (s : State)
    (rest : List (Nat × (Nat → Nat)))
    (hS : keyDelta K s.key_new cur &&& KEY_START K = 0) :
    runTicks K s ((cur, mem) :: rest) = runTicks K (Vblank K cur mem s).state rest := by
  have h := Vblank_returned K cur mem s hS
  rw [runTicks]
  revert h
  generalize Vblank K cur mem s = r
  intro h
  cases r with
  | returned t o => rfl
  | softReset t => cases h

theorem runDeltas_cons (K : KeyBits) (cur : Nat) (mem : Nat → Nat) (s : State)
    (rest : List (Nat × (Nat → Nat)))
    (hS : keyDelta K s.key_new cur &&& KEY_START K = 0) :
    runDeltas K s ((cur, mem) :: rest) =
      keyDelta K s.key_new cur :: runDeltas K (Vblank K cur mem s).state rest := by
  have h := Vblank_returned K cur mem s hS
  rw [runDeltas, Vblank_key_delta]
  revert h
  generalize Vblank K cur mem s = r
  intro h
  cases r with
  | returned t o => rfl
  | softReset t => cases h

theorem runDeltas_head (K : KeyBits) (cur : Nat) (mem : Nat → Nat) (s : State)
    (rest : List (Nat × (Nat → Nat))) :
    keyDelta K s.key_new cur ∈ runDeltas K s ((cur, mem) :: rest) := by
  rw [runDeltas, Vblank_key_delta]
  exact List.mem_cons_self _ _

/-! ## Arithmetic of the cursor and of the address step -/

theorem nibbleStep_eq (n : Nat) (hn : n ≤ 7) : nibbleStep n = 16 ^ n := by
  interval_cases n <;> rfl

theorem nibbleStep_lt (n : Nat) (hn : n ≤ 7) : nibbleStep n < 2 ^ 32 := by
  interval_cases n <;> decide

theorem add32_and_seven (n : Nat) (hn : n ≤ 7) : add32 n 1 &&& 7 = (n + 1) % 8 := by
  interval_cases n <;> rfl

theorem sub32_and_seven (n : Nat) (hn : n ≤ 7) : sub32 n 1 &&& 7 = (n + 7) % 8 := by
  interval_cases n <;> rfl

theorem sub32_add32 (b st : Nat) (hb : b < 2 ^ 32) : sub32 (add32 b st) st = b := by
  unfold sub32 add32
  omega

theorem add32_sub32 (b st : Nat) (hb : b < 2 ^ 32) : add32 (sub32 b st) st = b := by
  unfold sub32 add32
  omega

theorem mask_ne_zero (K : KeyBits) (b : Button) : K.mask b ≠ 0 := by
  rw [KeyBits.mask, BIT, Nat.one_shiftLeft]
  exact Nat.pos_iff_ne_zero.1 (Nat.pow_pos (by decide))

/-! ## Ticks with a single edge -/

/-- The fields of the state after a tick whose edge mask is `KEY_UP` alone. -/
theorem Vblank_only_up (K : KeyBits) (hK : K.WF) (s : State) (cur : Nat) (mem : Nat → Nat)
    (hd : keyDelta K s.key_new cur = KEY_UP K) :
    Vblank K cur mem s =
        TickResult.returned (Vblank K cur mem s).state (Vblank K cur mem s).output ∧
      (Vblank K cur mem s).state.base_address =
        add32 s.base_address (nibbleStep s.nibble_select) ∧
      (Vblank K cur mem s).state.nibble_select = s.nibble_select := by
  have hS : keyDelta K s.key_new cur &&& KEY_START K = 0 := by
    rw [hd, mask_and_mask_eq_zero_iff K hK]; decide
  refine ⟨Vblank_returned K cur mem s hS, ?_, ?_⟩
  · rw [Vblank_base_address, beforeStart_base_address, beforeA_base_address]
    simp [onUp_eq, onDown_eq, onRight_eq, onLeft_eq, updateKeyState_eq, hd,
      mask_and_mask_eq_zero_iff K hK, mask_ne_zero]
  · rw [Vblank_nibble_select, beforeA_nibble_select]
    simp [onRight_eq, onLeft_eq, updateKeyState_eq, hd, mask_and_mask_eq_zero_iff K hK]

/-- The fields of the state after a tick whose edge mask is `KEY_DOWN` alone. -/
theorem Vblank_only_down (K : KeyBits) (hK : K.WF) (s : State) (cur : Nat) (mem : Nat → Nat)
    (hd : keyDelta K s.key_new cur = KEY_DOWN K) :
    Vblank K cur mem s =
        TickResult.returned (Vblank K cur mem s).state (Vblank K cur mem s).output ∧
      (Vblank K cur mem s).state.base_address =
        sub32 s.base_address (nibbleStep s.nibble_select) ∧
      (Vblank K cur mem s).state.nibble_select = s.nibble_select := by
  have hS : keyDelta K s.key_new cur &&& KEY_START K = 0 := by
    rw [hd, mask_and_mask_eq_zero_iff K hK]; decide
  refine ⟨Vblank_returned K cur mem s hS, ?_, ?_⟩
  · rw [Vblank_base_address, beforeStart_base_address, beforeA_base_address]
    simp [onUp_eq, onDown_eq, onRight_eq, onLeft_eq, updateKeyState_eq, hd,
      mask_and_mask_eq_zero_iff K hK, mask_ne_zero]
  · rw [Vblank_nibble_select, beforeA_nibble_select]
    simp [onRight_eq, onLeft_eq, updateKeyState_eq, hd, mask_and_mask_eq_zero_iff K hK]

/-! ## Holding Toggle and Up -/

theorem or_mask_and_toggle (K : KeyBits) (b : Button) :
    (KEY_X K ||| K.mask b) &&& KEY_X K ≠ 0 := by
  show (KEY_X K ||| K.mask b) &&& BIT (K.bit Button.X) ≠ 0
  rw [and_BIT_ne_zero_iff, Nat.testBit_or]
  simp [KeyBits.mask, BIT_testBit]

/-- With Toggle and one other button held in both samples, the edge mask is that
button alone. -/
theorem keyDelta_hold_toggle (K : KeyBits) (hK : K.WF) (b : Button) (hb : b ≠ Button.X) :
    keyDelta K (KEY_X K ||| K.mask b) (KEY_X K ||| K.mask b) = K.mask b := by
  have hne : ¬ K.bit Button.X = K.bit b := fun e => hb (hK.1 _ _ e).symm
  rw [keyDelta, if_pos (or_mask_and_toggle K b), Nat.xor_self, Nat.zero_and, Nat.zero_xor]
  apply Nat.eq_of_testBit_eq
  intro i
  by_cases hi : i < 32
  · rw [Nat.testBit_and, not32_testBit _ i (mask_lt K hK Button.X) hi, Nat.testBit_or]
    simp only [KeyBits.mask, BIT_testBit]
    by_cases h1 : K.bit Button.X = i
    · have h2 : ¬ K.bit b = i := fun e => hne (h1.trans e.symm)
      simp [h1, h2]
    · simp [h1]
  · have h1 : (K.mask b).testBit i = false :=
      testBit_of_lt_32 _ i (mask_lt K hK b) hi
    rw [Nat.testBit_and, Nat.testBit_or, h1,
      testBit_of_lt_32 _ i (mask_lt K hK Button.X) hi]
    rfl

theorem add32_lt (a b : Nat) : add32 a b < 2 ^ 32 :=
  Nat.mod_lt _ (by decide)

theorem hold_toggle_up_run (K : KeyBits) (hK : K.WF) (ins : List (Nat × (Nat → Nat))) :
    ∀ s : State, s.base_address < 2 ^ 32 → s.key_new = KEY_X K ||| KEY_UP K →
      (∀ x ∈ ins, x.1 = KEY_X K ||| KEY_UP K) →
      runDeltas K s ins = List.replicate ins.length (KEY_UP K) ∧
      ∃ t, runTicks K s ins = some t ∧ t.nibble_select = s.nibble_select ∧
        t.base_address =
          (s.base_address + ins.length * nibbleStep s.nibble_select) % 2 ^ 32 := by
  induction ins with
  | nil =>
    intro s hb _ _
    have h0 : s.base_address % 2 ^ 32 = s.base_address := Nat.mod_eq_of_lt hb
    refine ⟨rfl, s, rfl, rfl, ?_⟩
    rw [List.length_nil, Nat.zero_mul, Nat.add_zero, h0]
  | cons x rest ih =>
    intro s _ hprev hins
    obtain ⟨c, m⟩ := x
    have hc : c = KEY_X K ||| KEY_UP K := hins (c, m) (List.mem_cons_self _ _)
    have hd : keyDelta K s.key_new c = KEY_UP K := by
      rw [hprev, hc]
      exact keyDelta_hold_toggle K hK Button.UP (by decide)
    have hS : keyDelta K s.key_new c &&& KEY_START K = 0 := by
      rw [hd, mask_and_mask_eq_zero_iff K hK]; decide
    obtain ⟨_, hbase, hnib⟩ := Vblank_only_up K hK s c m hd
    have hkn : (Vblank K c m s).state.key_new = KEY_X K ||| KEY_UP K := by
      rw [Vblank_key_new, hc]
    have hlt : (Vblank K c m s).state.base_address < 2 ^ 32 := by
      rw [hbase]; exact add32_lt _ _
    obtain ⟨hds, t, hrun, htn, htb⟩ :=
      ih (Vblank K c m s).state hlt hkn (fun y hy => hins y (List.mem_cons_of_mem _ hy))
    refine ⟨?_, t, ?_, ?_, ?_⟩
    · rw [runDeltas_cons K c m s rest hS, hds, hd]
      rfl
    · rw [runTicks_cons K c m s rest hS, hrun]
    · rw [htn, hnib]
    · rw [htb, hbase, hnib, add32, Nat.mod_add_mod, List.length_cons, Nat.succ_mul]
      congr 1
      omega

/-- C3: with Toggle and Up held in the previous sample and in each of the next
`k >= 1` samples, every one of the `k` ticks has the edge mask Up and applies
the Up transition: afterwards `base_address` is the initial value plus
`k * (1 << (4 * n))` modulo `2 ^ 32` and `nibble_select` is still `n`. -/
theorem auto_repeat (K : KeyBits) (hK : K.WF) (s : State) (k : Nat)
    (ins : List (Nat × (Nat → Nat)))
    (hn : s.nibble_select ≤ 7) (hk : 1 ≤ k) (hlen : ins.length = k)
    (hprev : s.key_new = KEY_X K ||| KEY_UP K)
    (hins : ∀ x ∈ ins, x.1 = KEY_X K ||| KEY_UP K) :
    runDeltas K s ins = List.replicate k (KEY_UP K) ∧
    ∃ t, runTicks K s ins = some t ∧
      t.base_address =
        (s.base_address + k * (1 <<< (4 * s.nibble_select))) % 2 ^ 32 ∧
      t.nibble_select = s.nibble_select := by
  have hst : (1 <<< (4 * s.nibble_select)) = nibbleStep s.nibble_select := by
    rw [nibbleStep_eq _ hn, Nat.one_shiftLeft, Nat.pow_mul]
  rw [hst]
  cases ins with
  | nil => exact absurd hlen (by rw [List.length_nil]; omega)
  | cons x rest =>
    obtain ⟨c, m⟩ := x
    have hc : c = KEY_X K ||| KEY_UP K := hins (c, m) (List.mem_cons_self _ _)
    have hd : keyDelta K s.key_new c = KEY_UP K := by
      rw [hprev, hc]
      exact keyDelta_hold_toggle K hK Button.UP (by decide)
    have hS : keyDelta K s.key_new c &&& KEY_START K = 0 := by
      rw [hd, mask_and_mask_eq_zero_iff K hK]; decide
    obtain ⟨_, hbase, hnib⟩ := Vblank_only_up K hK s c m hd
    have hkn : (Vblank K c m s).state.key_new = KEY_X K ||| KEY_UP K := by
      rw [Vblank_key_new, hc]
    have hlt : (Vblank K c m s).state.base_address < 2 ^ 32 := by
      rw [hbase]; exact add32_lt _ _
    obtain ⟨hds, t, hrun, htn, htb⟩ :=
      hold_toggle_up_run K hK rest (Vblank K c m s).state hlt hkn
        (fun y hy => hins y (List.mem_cons_of_mem _ hy))
    subst hlen
    refine ⟨?_, t, ?_, ?_, ?_⟩
    · rw [runDeltas_cons K c m s rest hS, hds, hd]
      rfl
    · rw [runTicks_cons K c m s rest hS, hrun]
    · rw [htb, hbase, hnib, add32, Nat.mod_add_mod, List.length_cons, Nat.succ_mul]
      congr 1
      omega
    · rw [htn, hnib]

/-- C3 at a concrete run: three ticks with Toggle and Up held, cursor on digit 2,
add `3 * 0x100`. -/
theorem auto_repeat_witness :
    ndsKeys.WF ∧
    runDeltas ndsKeys { zeroState with key_new := 1088, nibble_select := 2 }
      [(1088, fun a => a), (1088, fun a => a), (1088, fun a => a)] =
        List.replicate 3 (KEY_UP ndsKeys) ∧
    ∃ t, runTicks ndsKeys { zeroState with key_new := 1088, nibble_select := 2 }
        [(1088, fun a => a), (1088, fun a => a), (1088, fun a => a)] = some t ∧
      t.base_address =
        (({ zeroState with key_new := 1088, nibble_select := 2 } : State).base_address +
          3 * (1 <<< (4 *
            ({ zeroState with key_new := 1088, nibble_select := 2 } : State).nibble_select))) %
          2 ^ 32 ∧
      t.nibble_select =
        ({ zeroState with key_new := 1088, nibble_select := 2 } : State).nibble_select :=
  ⟨by decide,
    auto_repeat ndsKeys (by decide) { zeroState with key_new := 1088, nibble_select := 2 } 3
      [(1088, fun a => a), (1088, fun a => a), (1088, fun a => a)]
      (by decide) (by decide) rfl rfl (by decide)⟩

/-! ## The cursor -/

theorem and_seven_le (x : Nat) : x &&& 7 ≤ 7 := Nat.and_le_right

/-- One tick keeps `nibble_select` in `[0,7]`. -/
theorem Vblank_nibble_le (K : KeyBits) (cur : Nat) (mem : Nat → Nat) (s : State)
    (hn : s.nibble_select ≤ 7) : (Vblank K cur mem s).state.nibble_select ≤ 7 := by
  rw [Vblank_nibble_select, beforeA_nibble_select]
  simp only [onRight_eq, onLeft_eq, updateKeyState_eq]
  split_ifs <;> first | exact Nat.zero_le _ | exact and_seven_le _ | exact hn

theorem runTicks_nibble_le (K : KeyBits) (ins : List (Nat × (Nat → Nat))) :
    ∀ s t : State, s.nibble_select ≤ 7 → runTicks K s ins = some t →
      t.nibble_select ≤ 7 := by
  induction ins with
  | nil =>
    intro s t hn h
    rw [runTicks] at h
    cases h
    exact hn
  | cons x rest ih =>
    intro s t hn h
    obtain ⟨c, m⟩ := x
    have h1 := Vblank_nibble_le K c m s hn
    rw [runTicks] at h
    revert h h1
    generalize Vblank K c m s = r
    intro h h1
    cases r with
    | returned u o => exact ih u t h1 h
    | softReset u => cases h

/-- C4: every state reached from the state `reset_viewer` produces by a finite
run of `Vblank` ticks, whatever the samples and the memory, has `nibble_select`
in `[0,7]`; so has the state of any further tick, also one that ends in the
soft reset. -/
theorem nibble_select_invariant (K : KeyBits) (pre : State)
    (ins : List (Nat × (Nat → Nat))) (t : State)
    (h : runTicks K (reset_viewer pre) ins = some t) :
    t.nibble_select ≤ 7 ∧
    ∀ (cur : Nat) (mem : Nat → Nat), (Vblank K cur mem t).state.nibble_select ≤ 7 := by
  have h0 : (reset_viewer pre).nibble_select ≤ 7 := by
    rw [reset_viewer_eq]
    exact Nat.zero_le _
  have ht := runTicks_nibble_le K ins _ t h0 h
  exact ⟨ht, fun cur mem => Vblank_nibble_le K cur mem t ht⟩

/-- C4 at a concrete run: Right is pressed once after the reset. -/
theorem nibble_select_invariant_witness :
    runTicks ndsKeys (reset_viewer zeroState) [(16, fun a => a)] =
      some (Vblank ndsKeys 16 (fun a => a) (reset_viewer zeroState)).state ∧
    (Vblank ndsKeys 16 (fun a => a) (reset_viewer zeroState)).state.nibble_select ≤ 7 :=
  ⟨rfl, (nibble_select_invariant ndsKeys zeroState [(16, fun a => a)]
    (Vblank ndsKeys 16 (fun a => a) (reset_viewer zeroState)).state rfl).1⟩

/-- The cursor after a tick with a Left edge and no Right or B edge. -/
theorem Vblank_left_edge (K : KeyBits) (cur : Nat) (mem : Nat → Nat) (s : State)
    (hL : keyDelta K s.key_new cur &&& KEY_LEFT K ≠ 0)
    (hR : keyDelta K s.key_new cur &&& KEY_RIGHT K = 0)
    (hB : keyDelta K s.key_new cur &&& KEY_B K = 0) :
    (Vblank K cur mem s).state.nibble_select = add32 s.nibble_select 1 &&& 7 := by
  rw [Vblank_nibble_select, beforeA_nibble_select]
  simp [onRight_eq, onLeft_eq, updateKeyState_eq, hL, hR, hB]

/-- The cursor after a tick with a Right edge and no Left or B edge. -/
theorem Vblank_right_edge (K : KeyBits) (cur : Nat) (mem : Nat → Nat) (s : State)
    (hL : keyDelta K s.key_new cur &&& KEY_LEFT K = 0)
    (hR : keyDelta K s.key_new cur &&& KEY_RIGHT K ≠ 0)
    (hB : keyDelta K s.key_new cur &&& KEY_B K = 0) :
    (Vblank K cur mem s).state.nibble_select = sub32 s.nibble_select 1 &&& 7 := by
  rw [Vblank_nibble_select, beforeA_nibble_select]
  simp [onRight_eq, onLeft_eq, updateKeyState_eq, hL, hR, hB]

theorem left_edges_run (K : KeyBits) (ins : List (Nat × (Nat → Nat))) :
    ∀ s : State, s.nibble_select ≤ 7 →
      (∀ d ∈ runDeltas K s ins, d &&& KEY_LEFT K ≠ 0 ∧ d &&& KEY_RIGHT K = 0 ∧
        d &&& KEY_B K = 0 ∧ d &&& KEY_START K = 0) →
      ∃ t, runTicks K s ins = some t ∧
        t.nibble_select = (s.nibble_select + ins.length) % 8 := by
  induction ins with
  | nil =>
    intro s hn _
    exact ⟨s, rfl, by rw [List.length_nil]; omega⟩
  | cons x rest ih =>
    intro s hn hall
    obtain ⟨c, m⟩ := x
    obtain ⟨hL, hR, hB, hS⟩ := hall _ (runDeltas_head K c m s rest)
    have h1 := Vblank_left_edge K c m s hL hR hB
    rw [add32_and_seven _ hn] at h1
    have hle : (Vblank K c m s).state.nibble_select ≤ 7 := by rw [h1]; omega
    obtain ⟨t, hrun, ht⟩ := ih (Vblank K c m s).state hle (fun d hd => hall d (by
      rw [runDeltas_cons K c m s rest hS]
      exact List.mem_cons_of_mem _ hd))
    refine ⟨t, ?_, ?_⟩
    · rw [runTicks_cons K c m s rest hS, hrun]
    · rw [ht, h1, List.length_cons]; omega

theorem runDeltas_pair (K : KeyBits) (s : State) (c1 c2 : Nat) (m1 m2 : Nat → Nat)
    (d1 d2 : Nat) (h : runDeltas K s [(c1, m1), (c2, m2)] = [d1, d2])
    (hS : d1 &&& KEY_START K = 0) :
    keyDelta K s.key_new c1 = d1 ∧
      keyDelta K (Vblank K c1 m1 s).state.key_new c2 = d2 := by
  have h1 : keyDelta K s.key_new c1 = d1 := by
    have := runDeltas_head K c1 m1 s [(c2, m2)]
    rw [runDeltas, Vblank_key_delta] at h
    exact (List.cons.inj h).1
  have hS1 : keyDelta K s.key_new c1 &&& KEY_START K = 0 := by rw [h1]; exact hS
  rw [runDeltas_cons K c1 m1 s _ hS1] at h
  have h2 := (List.cons.inj h).2
  rw [runDeltas, Vblank_key_delta] at h2
  exact ⟨h1, (List.cons.inj h2).1⟩

/-- C5: with `nibble_select = n` in `[0,7]`, a tick with a Left edge (and no
Right or B edge) leaves `(n + 1) mod 8`, a tick with a Right edge (and no Left
or B edge) leaves `(n + 7) mod 8`, which is what `(n - 1) AND 7` on 32-bit
unsigned values computes; eight consecutive Left-edge ticks return the cursor to
`n`, and so does a Left-edge tick followed by a Right-edge tick. -/
theorem cursor_group_law (K : KeyBits) (s : State) (hn : s.nibble_select ≤ 7) :
    (∀ (cur : Nat) (mem : Nat → Nat),
      (Vblank K cur mem s).state.key_delta &&& KEY_LEFT K ≠ 0 →
      (Vblank K cur mem s).state.key_delta &&& KEY_RIGHT K = 0 →
      (Vblank K cur mem s).state.key_delta &&& KEY_B K = 0 →
      (Vblank K cur mem s).state.nibble_select = (s.nibble_select + 1) % 8) ∧
    (∀ (cur : Nat) (mem : Nat → Nat),
      (Vblank K cur mem s).state.key_delta &&& KEY_RIGHT K ≠ 0 →
      (Vblank K cur mem s).state.key_delta &&& KEY_LEFT K = 0 →
      (Vblank K cur mem s).state.key_delta &&& KEY_B K = 0 →
      (Vblank K cur mem s).state.nibble_select = (s.nibble_select + 7) % 8) ∧
    sub32 s.nibble_select 1 &&& 7 = (s.nibble_select + 7) % 8 ∧
    (∀ ins : List (Nat × (Nat → Nat)), ins.length = 8 →
      (∀ d ∈ runDeltas K s ins, d &&& KEY_LEFT K ≠ 0 ∧ d &&& KEY_RIGHT K = 0 ∧
        d &&& KEY_B K = 0 ∧ d &&& KEY_START K = 0) →
      ∃ t, runTicks K s ins = some t ∧ t.nibble_select = s.nibble_select) ∧
    (∀ (c1 c2 : Nat) (m1 m2 : Nat → Nat) (d1 d2 : Nat),
      runDeltas K s [(c1, m1), (c2, m2)] = [d1, d2] →
      (d1 &&& KEY_LEFT K ≠ 0 ∧ d1 &&& KEY_RIGHT K = 0 ∧ d1 &&& KEY_B K = 0 ∧
        d1 &&& KEY_START K = 0) →
      (d2 &&& KEY_RIGHT K ≠ 0 ∧ d2 &&& KEY_LEFT K = 0 ∧ d2 &&& KEY_B K = 0 ∧
        d2 &&& KEY_START K = 0) →
      ∃ t, runTicks K s [(c1, m1), (c2, m2)] = some t ∧
        t.nibble_select = s.nibble_select) := by
  refine ⟨?_, ?_, sub32_and_seven _ hn, ?_, ?_⟩
  · intro cur mem hL hR hB
    rw [Vblank_key_delta] at hL hR hB
    rw [Vblank_left_edge K cur mem s hL hR hB, add32_and_seven _ hn]
  · intro cur mem hR hL hB
    rw [Vblank_key_delta] at hL hR hB
    rw [Vblank_right_edge K cur mem s hL hR hB, sub32_and_seven _ hn]
  · intro ins hlen hall
    obtain ⟨t, hrun, ht⟩ := left_edges_run K ins s hn hall
    refine ⟨t, hrun, ?_⟩
    rw [ht, hlen]
    omega
  · intro c1 c2 m1 m2 d1 d2 hds h1 h2
    obtain ⟨hL1, hR1, hB1, hS1⟩ := h1
    obtain ⟨hR2, hL2, hB2, hS2⟩ := h2
    obtain ⟨e1, e2⟩ := runDeltas_pair K s c1 c2 m1 m2 d1 d2 hds hS1
    rw [← e1] at hL1 hR1 hB1 hS1
    rw [← e2] at hL2 hR2 hB2 hS2
    have n1 := Vblank_left_edge K c1 m1 s hL1 hR1 hB1
    rw [add32_and_seven _ hn] at n1
    have hle : (Vblank K c1 m1 s).state.nibble_select ≤ 7 := by rw [n1]; omega
    have n2 := Vblank_right_edge K c2 m2 (Vblank K c1 m1 s).state hL2 hR2 hB2
    rw [sub32_and_seven _ hle, n1] at n2
    refine ⟨(Vblank K c2 m2 (Vblank K c1 m1 s).state).state, ?_, ?_⟩
    · rw [runTicks_cons K c1 m1 s _ hS1, runTicks_cons K c2 m2 _ _ hS2]
      rfl
    · rw [n2]; omega

/-- C5 at concrete runs from cursor 7: a Left press wraps to 0, a Right press
gives 6, eight ticks with Toggle and Left held return to 7, and Left then Right
returns to 7. -/
theorem cursor_group_law_witness :
    ({ zeroState with nibble_select := 7, key_new := 1056 } : State).nibble_select ≤ 7 ∧
    (Vblank ndsKeys 1056 (fun a => a)
      { zeroState with nibble_select := 7, key_new := 1056 }).state.nibble_select =
        (({ zeroState with nibble_select := 7, key_new := 1056 } : State).nibble_select + 1) % 8 ∧
    (∃ t, runTicks ndsKeys { zeroState with nibble_select := 7, key_new := 1056 }
        (List.replicate 8 (1056, fun a => a)) = some t ∧
      t.nibble_select =
        ({ zeroState with nibble_select := 7, key_new := 1056 } : State).nibble_select) ∧
    (∃ t, runTicks ndsKeys { zeroState with nibble_select := 7, key_new := 1056 }
        [(1056, fun a => a), (16, fun a => a)] = some t ∧
      t.nibble_select =
        ({ zeroState with nibble_select := 7, key_new := 1056 } : State).nibble_select) :=
  ⟨by decide,
    (cursor_group_law ndsKeys { zeroState with nibble_select := 7, key_new := 1056 }
      (by decide)).1 1056 (fun a => a) (by decide) (by decide) (by decide),
    (cursor_group_law ndsKeys { zeroState with nibble_select := 7, key_new := 1056 }
      (by decide)).2.2.2.1 (List.replicate 8 (1056, fun a => a)) (by decide) (by decide),
    (cursor_group_law ndsKeys { zeroState with nibble_select := 7, key_new := 1056 }
      (by decide)).2.2.2.2 1056 16 (fun a => a) (fun a => a) 32 16 (by decide)
      (by decide) (by decide)⟩

/-! ## Up and Down -/

/-- C6: for a 32-bit `base_address` and `nibble_select` in `[0,7]`, a tick whose
only edge is Up followed by a tick whose only edge is Down leaves `base_address`
and `nibble_select` as they were before the two ticks. -/
theorem up_down_inverse (K : KeyBits) (hK : K.WF) (s : State) (c1 c2 : Nat)
    (m1 m2 : Nat → Nat)
    (hb : s.base_address < 2 ^ 32) (_hn : s.nibble_select ≤ 7)
    (hd : runDeltas K s [(c1, m1), (c2, m2)] = [KEY_UP K, KEY_DOWN K]) :
    ∃ t, runTicks K s [(c1, m1), (c2, m2)] = some t ∧
      t.base_address = s.base_address ∧ t.nibble_select = s.nibble_select := by
  have hS : KEY_UP K &&& KEY_START K = 0 := by
    rw [mask_and_mask_eq_zero_iff K hK]; decide
  obtain ⟨e1, e2⟩ := runDeltas_pair K s c1 c2 m1 m2 _ _ hd hS
  obtain ⟨_, b1, n1⟩ := Vblank_only_up K hK s c1 m1 e1
  obtain ⟨_, b2, n2⟩ := Vblank_only_down K hK (Vblank K c1 m1 s).state c2 m2 e2
  have hS1 : keyDelta K s.key_new c1 &&& KEY_START K = 0 := by rw [e1]; exact hS
  have hS2 : keyDelta K (Vblank K c1 m1 s).state.key_new c2 &&& KEY_START K = 0 := by
    rw [e2, mask_and_mask_eq_zero_iff K hK]; decide
  refine ⟨(Vblank K c2 m2 (Vblank K c1 m1 s).state).state, ?_, ?_, ?_⟩
  · rw [runTicks_cons K c1 m1 s _ hS1, runTicks_cons K c2 m2 _ _ hS2]
    rfl
  · rw [b2, n1, b1, sub32_add32 _ _ hb]
  · rw [n2, n1]

/-- C6 at a concrete run: Up pressed, then Up released and Down pressed, on the
top digit of `0xF0000000`, where the Up step wraps. -/
theorem up_down_inverse_witness :
    ndsKeys.WF ∧
    runDeltas ndsKeys { zeroState with base_address := 0xF0000000, nibble_select := 7 }
      [(64, fun a => a), (128, fun a => a)] = [KEY_UP ndsKeys, KEY_DOWN ndsKeys] ∧
    ∃ t, runTicks ndsKeys { zeroState with base_address := 0xF0000000, nibble_select := 7 }
        [(64, fun a => a), (128, fun a => a)] = some t ∧
      t.base_address =
        ({ zeroState with base_address := 0xF0000000, nibble_select := 7 } : State).base_address ∧
      t.nibble_select =
        ({ zeroState with base_address := 0xF0000000, nibble_select := 7 } : State).nibble_select :=
  ⟨by decide, by decide,
    up_down_inverse ndsKeys (by decide)
      { zeroState with base_address := 0xF0000000, nibble_select := 7 } 64 128
      (fun a => a) (fun a => a) (by decide) (by decide) (by decide)⟩

theorem sub32_cast (b st : Nat) :
    ((sub32 b st : Nat) : Int) = ((b : Int) - (st : Int)) % 2 ^ 32 := by
  unfold sub32
  omega

/-- C7: for `nibble_select = n` in `[0,7]` the step `1 << (4 * n)` is `16 ^ n`
(shift at most 28, nothing shifted out of 32 bits); a tick whose only edge is Up
returns with `base_address = (b + 16 ^ n) mod 2 ^ 32`, a tick whose only edge is
Down returns with `base_address = (b - 16 ^ n) mod 2 ^ 32`, without clamping; in
particular `n = 0`, `b = 0`, Down gives `0xFFFFFFFF`, and `n = 7`,
`b = 0xF0000000`, Up gives `0`. -/
theorem address_step (K : KeyBits) (hK : K.WF) (s : State) (cur : Nat) (mem : Nat → Nat)
    (hn : s.nibble_select ≤ 7) :
    4 * s.nibble_select ≤ 28 ∧
    1 <<< (4 * s.nibble_select) = 16 ^ s.nibble_select ∧
    nibbleStep s.nibble_select = 16 ^ s.nibble_select ∧
    ((Vblank K cur mem s).state.key_delta = KEY_UP K →
      Vblank K cur mem s =
        TickResult.returned (Vblank K cur mem s).state (Vblank K cur mem s).output ∧
      (Vblank K cur mem s).state.base_address =
        (s.base_address + 16 ^ s.nibble_select) % 2 ^ 32) ∧
    ((Vblank K cur mem s).state.key_delta = KEY_DOWN K →
      Vblank K cur mem s =
        TickResult.returned (Vblank K cur mem s).state (Vblank K cur mem s).output ∧
      ((Vblank K cur mem s).state.base_address : Int) =
        ((s.base_address : Int) - 16 ^ s.nibble_select) % 2 ^ 32) ∧
    ((Vblank K cur mem s).state.key_delta = KEY_DOWN K → s.nibble_select = 0 →
      s.base_address = 0x00000000 →
      (Vblank K cur mem s).state.base_address = 0xFFFFFFFF) ∧
    ((Vblank K cur mem s).state.key_delta = KEY_UP K → s.nibble_select = 7 →
      s.base_address = 0xF0000000 →
      (Vblank K cur mem s).state.base_address = 0x00000000) := by
  have hstep := nibbleStep_eq _ hn
  refine ⟨by omega, ?_, hstep, ?_, ?_, ?_, ?_⟩
  · rw [Nat.one_shiftLeft, Nat.pow_mul]
  · intro hd
    rw [Vblank_key_delta] at hd
    obtain ⟨hret, hb, _⟩ := Vblank_only_up K hK s cur mem hd
    exact ⟨hret, by rw [hb, hstep, add32]⟩
  · intro hd
    rw [Vblank_key_delta] at hd
    obtain ⟨hret, hb, _⟩ := Vblank_only_down K hK s cur mem hd
    refine ⟨hret, ?_⟩
    rw [hb, sub32_cast, hstep]
    push_cast
    rfl
  · intro hd h0 hb0
    rw [Vblank_key_delta] at hd
    obtain ⟨_, hb, _⟩ := Vblank_only_down K hK s cur mem hd
    rw [hb, h0, hb0]
    rfl
  · intro hd h7 hb7
    rw [Vblank_key_delta] at hd
    obtain ⟨_, hb, _⟩ := Vblank_only_up K hK s cur mem hd
    rw [hb, h7, hb7]
    rfl

/-- C7 at the two concrete ticks of the claim. -/
theorem address_step_witness :
    ndsKeys.WF ∧
    (Vblank ndsKeys 128 (fun a => a) zeroState).state.key_delta = KEY_DOWN ndsKeys ∧
    (Vblank ndsKeys 128 (fun a => a) zeroState).state.base_address = 0xFFFFFFFF ∧
    (Vblank ndsKeys 64 (fun a => a)
      { zeroState with nibble_select := 7, base_address := 0xF0000000 }).state.key_delta =
        KEY_UP ndsKeys ∧
    (Vblank ndsKeys 64 (fun a => a)
      { zeroState with nibble_select := 7, base_address := 0xF0000000 }).state.base_address =
        0x00000000 :=
  ⟨by decide, by decide,
    (address_step ndsKeys (by decide) zeroState 128 (fun a => a) (by decide)).2.2.2.2.2.1
      (by decide) rfl rfl,
    by decide,
    (address_step ndsKeys (by decide)
      { zeroState with nibble_select := 7, base_address := 0xF0000000 } 64 (fun a => a)
      (by decide)).2.2.2.2.2.2 (by decide) rfl rfl⟩

/-! ## Reset -/

/-- C8: from every pre-state `reset_viewer` ends with `running = true`,
`nibble_select = 0`, `base_address = 0xFFFF0000`, each of the 16 buffer slots
equal to `0xDEADBEEF` and `update = true`; `key_old` and `key_new` are as
before. -/
theorem reset_postcondition (pre : State) :
    (reset_viewer pre).running = true ∧
    (reset_viewer pre).nibble_select = 0 ∧
    (reset_viewer pre).base_address = 0xFFFF0000 ∧
    (∀ i : Fin buffer_size, (reset_viewer pre).buffer i = 0xDEADBEEF) ∧
    (reset_viewer pre).update = true ∧
    (reset_viewer pre).key_old = pre.key_old ∧
    (reset_viewer pre).key_new = pre.key_new := by
  rw [reset_viewer_eq]
  exact ⟨rfl, rfl, rfl, fun _ => rfl, rfl, rfl, rfl⟩

/-- C9, as the claim states it, fails: a tick whose edge mask is B and R ends
with `base_address = 0xFFFF0010`, and a tick whose edge mask is B, A, L and
Select ends with `base_address = 0xFFFEFFF0`, buffer slot 0 holding the word read
from memory, and `running = false`. -/
theorem reset_tick_overwritten :
    (Vblank ndsKeys 258 (fun a => a) zeroState).state.key_delta &&& KEY_B ndsKeys ≠ 0 ∧
    (Vblank ndsKeys 258 (fun a => a) zeroState).state.key_delta &&& KEY_START ndsKeys = 0 ∧
    (Vblank ndsKeys 258 (fun a => a) zeroState).state.base_address = 0xFFFF0010 ∧
    (Vblank ndsKeys 519 (fun a => a) zeroState).state.key_delta &&& KEY_B ndsKeys ≠ 0 ∧
    (Vblank ndsKeys 519 (fun a => a) zeroState).state.key_delta &&& KEY_START ndsKeys = 0 ∧
    (Vblank ndsKeys 519 (fun a => a) zeroState).state.base_address = 0xFFFEFFF0 ∧
    (Vblank ndsKeys 519 (fun a => a) zeroState).state.buffer 0 = 0xFFFF0000 ∧
    (Vblank ndsKeys 519 (fun a => a) zeroState).state.running = false := by
  decide

/-- C9, amended: a tick whose edge mask contains B and not Start returns with
`nibble_select = 0`; with `base_address = 0xFFFF0000` when no R or L edge fires
in it (`0xFFFF0010` after an R edge alone, `0xFFFEFFF0` after an L edge alone);
with all 16 buffer slots equal to `0xDEADBEEF` when no A edge fires in it (an A
edge replaces them by the words read from `0xFFFF0000` on); and with
`running = true` when no Select edge fires in it (a Select edge leaves
`running = false`). -/
theorem reset_tick (K : KeyBits) (s : State) (cur : Nat) (mem : Nat → Nat)
    (hB : (Vblank K cur mem s).state.key_delta &&& KEY_B K ≠ 0)
    (hS : (Vblank K cur mem s).state.key_delta &&& KEY_START K = 0) :
    Vblank K cur mem s =
      TickResult.returned (Vblank K cur mem s).state (Vblank K cur mem s).output ∧
    (Vblank K cur mem s).state.nibble_select = 0 ∧
    ((Vblank K cur mem s).state.key_delta &&& KEY_R K = 0 →
      (Vblank K cur mem s).state.key_delta &&& KEY_L K = 0 →
      (Vblank K cur mem s).state.base_address = 0xFFFF0000) ∧
    ((Vblank K cur mem s).state.key_delta &&& KEY_R K ≠ 0 →
      (Vblank K cur mem s).state.key_delta &&& KEY_L K = 0 →
      (Vblank K cur mem s).state.base_address = 0xFFFF0010) ∧
    ((Vblank K cur mem s).state.key_delta &&& KEY_R K = 0 →
      (Vblank K cur mem s).state.key_delta &&& KEY_L K ≠ 0 →
      (Vblank K cur mem s).state.base_address = 0xFFFEFFF0) ∧
    ((Vblank K cur mem s).state.key_delta &&& KEY_A K = 0 →
      ∀ i : Fin buffer_size, (Vblank K cur mem s).state.buffer i = 0xDEADBEEF) ∧
    ((Vblank K cur mem s).state.key_delta &&& KEY_A K ≠ 0 →
      ∀ i : Fin buffer_size,
        (Vblank K cur mem s).state.buffer i = mem ((0xFFFF0000 + 4 * i.val) % 2 ^ 32)) ∧
    ((Vblank K cur mem s).state.key_delta &&& KEY_SELECT K = 0 →
      (Vblank K cur mem s).state.running = true) ∧
    ((Vblank K cur mem s).state.key_delta &&& KEY_SELECT K ≠ 0 →
      (Vblank K cur mem s).state.running = false) := by
  rw [Vblank_key_delta] at hB hS
  simp only [Vblank_key_delta]
  have hbase : (beforeA K cur s).base_address = 0xFFFF0000 := by
    rw [beforeA_base_address, if_pos hB]
  refine ⟨Vblank_returned K cur mem s hS, ?_, ?_, ?_, ?_, ?_, ?_, ?_, ?_⟩
  · rw [Vblank_nibble_select, beforeA_nibble_select, if_pos hB]
  · intro hR hL
    rw [Vblank_base_address, beforeStart_base_address, hbase]
    simp [hR, hL]
  · intro hR hL
    rw [Vblank_base_address, beforeStart_base_address, hbase]
    simp [hR, hL]
    rfl
  · intro hR hL
    rw [Vblank_base_address, beforeStart_base_address, hbase]
    simp [hR, hL]
    rfl
  · intro hA i
    rw [Vblank_buffer, beforeStart_buffer, beforeA_buffer]
    simp [hA, hB]
  · intro hA i
    rw [Vblank_buffer, beforeStart_buffer, hbase, if_pos hA]
    rfl
  · intro hSel
    rw [Vblank_running K cur mem s hS, beforeA_running]
    simp [hSel, hB]
  · intro hSel
    rw [Vblank_running K cur mem s hS, if_pos hSel]

/-- C9 amended, at a concrete tick: B alone is pressed after an address change. -/
theorem reset_tick_witness :
    (Vblank ndsKeys 2 (fun a => a)
      { zeroState with base_address := 0x1234, nibble_select := 3 }).state.key_delta &&&
        KEY_B ndsKeys ≠ 0 ∧
    (Vblank ndsKeys 2 (fun a => a)
      { zeroState with base_address := 0x1234, nibble_select := 3 }).state.key_delta &&&
        KEY_START ndsKeys = 0 ∧
    (Vblank ndsKeys 2 (fun a => a)
      { zeroState with base_address := 0x1234, nibble_select := 3 }).state.nibble_select = 0 ∧
    (Vblank ndsKeys 2 (fun a => a)
      { zeroState with base_address := 0x1234, nibble_select := 3 }).state.base_address =
        0xFFFF0000 ∧
    (Vblank ndsKeys 2 (fun a => a)
      { zeroState with base_address := 0x1234, nibble_select := 3 }).state.running = true :=
  ⟨by decide, by decide,
    (reset_tick ndsKeys { zeroState with base_address := 0x1234, nibble_select := 3 } 2
      (fun a => a) (by decide) (by decide)).2.1,
    (reset_tick ndsKeys { zeroState with base_address := 0x1234, nibble_select := 3 } 2
      (fun a => a) (by decide) (by decide)).2.2.1 (by decide) (by decide),
    (reset_tick ndsKeys { zeroState with base_address := 0x1234, nibble_select := 3 } 2
      (fun a => a) (by decide) (by decide)).2.2.2.2.2.2.2.1 (by decide)⟩

/-! ## Memory snapshot -/

/-- C10, as the claim states it, fails in its last part: a tick whose edge mask
is A and Start reaches the soft reset and writes nothing, so the dump is not
rendered in that tick. -/
theorem snapshot_not_rendered_on_start :
    (Vblank ndsKeys 9 (fun a => a) zeroState).state.key_delta &&& KEY_A ndsKeys ≠ 0 ∧
    (∃ t, Vblank ndsKeys 9 (fun a => a) zeroState = TickResult.softReset t) ∧
    (Vblank ndsKeys 9 (fun a => a) zeroState).output = [] :=
  ⟨by decide, ⟨_, rfl⟩, by decide⟩

/-- C10, amended: in a tick whose edge mask contains A, with `b` the value of
`base_address` when the A block is reached, the A block leaves
`buffer[i] = mem ((b + 4 * i) mod 2 ^ 32)` for every `i` in `[0,16)`, which is
the buffer at the end of the tick, and does not change `base_address` or
`nibble_select`; when the edge mask does not contain Start the tick returns
having written the status line followed by the 16-line dump. -/
theorem memory_snapshot (K : KeyBits) (s : State) (cur : Nat) (mem : Nat → Nat)
    (hA : (Vblank K cur mem s).state.key_delta &&& KEY_A K ≠ 0) :
    (∀ i : Fin buffer_size,
      (onA K mem (beforeA K cur s)).buffer i =
        mem (((beforeA K cur s).base_address + 4 * i.val) % 2 ^ 32)) ∧
    (∀ i : Fin buffer_size,
      (Vblank K cur mem s).state.buffer i =
        mem (((beforeA K cur s).base_address + 4 * i.val) % 2 ^ 32)) ∧
    (onA K mem (beforeA K cur s)).base_address = (beforeA K cur s).base_address ∧
    (onA K mem (beforeA K cur s)).nibble_select = (beforeA K cur s).nibble_select ∧
    ((Vblank K cur mem s).state.key_delta &&& KEY_START K = 0 →
      Vblank K cur mem s =
        TickResult.returned (Vblank K cur mem s).state
          (igotoxy 1 0 ++ statusLine (Vblank K cur mem s).state ++
            (refresh_display (Vblank K cur mem s).state).2)) := by
  rw [Vblank_key_delta] at hA
  simp only [Vblank_key_delta]
  refine ⟨?_, ?_, ?_, ?_, ?_⟩
  · intro i
    rw [onA_eq]
    simp only [beforeA_key_delta, if_pos hA]
    rfl
  · intro i
    rw [Vblank_buffer, beforeStart_buffer, if_pos hA]
    rfl
  · rw [onA_eq]
  · rw [onA_eq]
  · intro hS
    have hu : (beforeStart K cur mem s).update = true := by
      rw [beforeStart_update]
      simp [hA]
    rw [Vblank_eq]
    simp only [hS, hu, ne_eq, not_true_eq_false, if_false, if_true, TickResult.state]
    rfl

/-- C10 amended, at a concrete tick: A alone is pressed at address `0x100` with
memory holding at each address the address itself. -/
theorem memory_snapshot_witness :
    (Vblank ndsKeys 1 (fun a => a)
      { zeroState with base_address := 0x100 }).state.key_delta &&& KEY_A ndsKeys ≠ 0 ∧
    (Vblank ndsKeys 1 (fun a => a) { zeroState with base_address := 0x100 }).state.buffer 3 =
      (fun a => a)
        (((beforeA ndsKeys 1 { zeroState with base_address := 0x100 }).base_address +
          4 * (3 : Fin buffer_size).val) % 2 ^ 32) ∧
    (Vblank ndsKeys 1 (fun a => a)
      { zeroState with base_address := 0x100 }).state.key_delta &&& KEY_START ndsKeys = 0 ∧
    Vblank ndsKeys 1 (fun a => a) { zeroState with base_address := 0x100 } =
      TickResult.returned
        (Vblank ndsKeys 1 (fun a => a) { zeroState with base_address := 0x100 }).state
        (igotoxy 1 0 ++
          statusLine (Vblank ndsKeys 1 (fun a => a)
            { zeroState with base_address := 0x100 }).state ++
          (refresh_display (Vblank ndsKeys 1 (fun a => a)
            { zeroState with base_address := 0x100 }).state).2) :=
  ⟨by decide,
    (memory_snapshot ndsKeys { zeroState with base_address := 0x100 } 1 (fun a => a)
      (by decide)).2.1 3,
    by decide,
    (memory_snapshot ndsKeys { zeroState with base_address := 0x100 } 1 (fun a => a)
      (by decide)).2.2.2.2 (by decide)⟩

/-! ## The character column -/

theorem displayRow_eq (s : State) (row : Fin buffer_size) :
    displayRow s row = specLine s row ++ ['\n'] := by
  simp [displayRow, specLine, add32, List.range, List.range.loop, Nat.shiftLeft_eq,
    Nat.mul_comm]

theorem displayChar_code (w x : Nat) :
    0x20 ≤ (displayChar w x).toNat ∧ (displayChar w x).toNat ≤ 0x7E := by
  unfold displayChar
  have h : (w >>> (x <<< 3)) &&& 0x7F ≤ 0x7F := Nat.and_le_right
  generalize (w >>> (x <<< 3)) &&& 0x7F = c at h
  interval_cases c <;> decide

theorem low7_eq (w x : Nat) : (w >>> (8 * x)) &&& 0x7F = (w / 256 ^ x) % 128 := by
  have h : (0x7F : Nat) = 2 ^ 7 - 1 := by norm_num
  rw [h, Nat.and_pow_two_sub_one_eq_mod, Nat.shiftRight_eq_div_pow, Nat.pow_mul]

theorem displayChar_eq (w x : Nat) :
    displayChar w x =
      if 0x20 ≤ (w >>> (8 * x)) &&& 0x7F ∧ (w >>> (8 * x)) &&& 0x7F ≤ 0x7E then
        Char.ofNat ((w >>> (8 * x)) &&& 0x7F)
      else '.' := by
  have hs : x <<< 3 = 8 * x := by rw [Nat.shiftLeft_eq]; omega
  unfold displayChar isprint
  rw [hs]
  by_cases h : 0x20 ≤ (w >>> (8 * x)) &&& 0x7F ∧ (w >>> (8 * x)) &&& 0x7F ≤ 0x7E
  · simp [h.1, h.2]
  · rw [if_neg h]
    simp only [Bool.not_eq_true', Bool.and_eq_false_iff, decide_eq_false_iff_not,
      Bool.not_eq_true, Bool.not_and, Bool.or_eq_true, Bool.not_eq_true',
      decide_eq_false_iff_not, ite_eq_left_iff, not_or, Decidable.not_not]
    intro h2
    exact absurd h2 h

theorem ofNat_toNat_low (c : Nat) (h : c ≤ 0x7F) : (Char.ofNat c).toNat = c := by
  interval_cases c <;> rfl

/-- C11: the `x`-th character of a dump row (`x` in `[0,4)`, `x = 0` the least
significant byte) is determined by `c = (w >> (8 * x)) AND 0x7F`, the low seven
bits of byte `x` of the word: it is the character with code `c` when
`0x20 <= c <= 0x7E` and `'.'` otherwise, so the codes `0x00 .. 0x1F` and `0x7F`
give `'.'` and the top bit of the byte is ignored; every displayed character has
a code in `0x20 .. 0x7E`. -/
theorem display_character (s : State) (row : Fin buffer_size) (x : Nat) (hx : x < 4) :
    (displayRow s row)[22 + x]? = some (displayChar (s.buffer row) x) ∧
    displayChar (s.buffer row) x =
      (if 0x20 ≤ (s.buffer row >>> (8 * x)) &&& 0x7F ∧
          (s.buffer row >>> (8 * x)) &&& 0x7F ≤ 0x7E then
        Char.ofNat ((s.buffer row >>> (8 * x)) &&& 0x7F)
      else '.') ∧
    (s.buffer row >>> (8 * x)) &&& 0x7F = (s.buffer row / 256 ^ x) % 128 ∧
    (0x20 ≤ (s.buffer row >>> (8 * x)) &&& 0x7F →
      (s.buffer row >>> (8 * x)) &&& 0x7F ≤ 0x7E →
      (displayChar (s.buffer row) x).toNat = (s.buffer row >>> (8 * x)) &&& 0x7F) ∧
    ((s.buffer row >>> (8 * x)) &&& 0x7F < 0x20 ∨
        (s.buffer row >>> (8 * x)) &&& 0x7F = 0x7F →
      displayChar (s.buffer row) x = '.') ∧
    (∀ w : Nat, (w / 256 ^ x) % 128 = (s.buffer row / 256 ^ x) % 128 →
      displayChar w x = displayChar (s.buffer row) x) ∧
    0x20 ≤ (displayChar (s.buffer row) x).toNat ∧
    (displayChar (s.buffer row) x).toNat ≤ 0x7E := by
  refine ⟨?_, displayChar_eq _ _, low7_eq _ _, ?_, ?_, ?_, displayChar_code _ _⟩
  · rw [displayRow_eq]
    interval_cases x <;> simp [specLine, hex8]
  · intro h1 h2
    rw [displayChar_eq, if_pos ⟨h1, h2⟩]
    exact ofNat_toNat_low _ Nat.and_le_right
  · intro h
    rw [displayChar_eq, if_neg]
    omega
  · intro w hw
    rw [displayChar_eq, displayChar_eq, low7_eq, low7_eq, hw]

/-- C11 at a concrete word: the bytes of `0x7F80C141`, least significant first,
show as `A`, `A` (top bit dropped), `.` and `.`. -/
theorem display_character_witness :
    (1 : Nat) < 4 ∧
    (displayRow { zeroState with buffer := fun _ => 0x7F80C141 } 0)[22 + 1]? =
      some (displayChar (({ zeroState with buffer := fun _ => 0x7F80C141 } : State).buffer 0) 1) ∧
    displayChar (({ zeroState with buffer := fun _ => 0x7F80C141 } : State).buffer 0) 1 = 'A' ∧
    displayChar 0x7F80C141 0 = 'A' ∧ displayChar 0x7F80C141 2 = '.' ∧
    displayChar 0x7F80C141 3 = '.' :=
  ⟨by decide,
    (display_character { zeroState with buffer := fun _ => 0x7F80C141 } 0 1 (by decide)).1,
    by decide, by decide, by decide, by decide⟩

/-! ## The dump -/

theorem hexDigit_upper (d : Nat) (hd : d < 16) :
    upperHexValue (hexDigit true d) = d ∧ hexDigit true d ≠ '\n' := by
  interval_cases d <;> decide

theorem hex8_length (upper : Bool) (v : Nat) : (hex8 upper v).length = 8 := by
  simp [hex8]

theorem hex8_digits (v : Nat) :
    ∀ c ∈ hex8 true v, upperHexValue c < 16 ∧ c ≠ '\n' := by
  intro c hc
  simp only [hex8, List.map_cons, List.map_nil, List.mem_cons, List.mem_singleton,
    List.not_mem_nil, or_false] at hc
  rcases hc with h | h | h | h | h | h | h | h <;>
    · subst h
      have hlt : ∀ k : Nat, (v >>> (4 * k)) % 16 < 16 := fun k => Nat.mod_lt _ (by decide)
      exact ⟨by rw [(hexDigit_upper _ (hlt _)).1]; exact hlt _, (hexDigit_upper _ (hlt _)).2⟩

theorem hex8_value (v : Nat) : ofUpperHex (hex8 true v) = v % 2 ^ 32 := by
  have hv : ∀ d : Nat, upperHexValue (hexDigit true (d % 16)) = d % 16 :=
    fun d => (hexDigit_upper _ (Nat.mod_lt _ (by decide))).1
  simp only [ofUpperHex, hex8, List.map_cons, List.map_nil, List.foldl_cons, List.foldl_nil,
    hv, Nat.shiftRight_eq_div_pow]
  norm_num
  omega

theorem separators :
    (" : ".toList).length = 3 ∧ (" | ".toList).length = 3 ∧
      '\n' ∉ " : ".toList ∧ '\n' ∉ " | ".toList ∧ '\n' ∉ igotoxy 3 0 := by
  decide

theorem displayChar_ne_newline (w x : Nat) : displayChar w x ≠ '\n' := by
  intro h
  have h1 := (displayChar_code w x).1
  rw [h] at h1
  exact absurd h1 (by decide)

theorem specLine_length (s : State) (row : Fin buffer_size) :
    (specLine s row).length = 26 := by
  simp [specLine, hex8_length, separators.1, separators.2.1]

theorem specLine_no_newline (s : State) (row : Fin buffer_size) :
    '\n' ∉ specLine s row := by
  intro h
  simp only [specLine, List.mem_append, List.mem_cons, List.mem_singleton,
    List.not_mem_nil, or_false] at h
  rcases h with (((h | h) | h) | h) | h
  · exact (hex8_digits _ _ h).2 rfl
  · exact separators.2.2.1 h
  · exact (hex8_digits _ _ h).2 rfl
  · exact separators.2.2.2.1 h
  · rcases h with h | h | h | h <;> exact displayChar_ne_newline _ _ h.symm

/-- C12: `refresh_display` writes the cursor positioning sequence and then
exactly 16 lines; line `row` is the eight upper-case hex digits of
`(base_address + 4 * row) mod 2 ^ 32`, then `" : "`, then the eight upper-case
hex digits of `buffer[row]`, then `" | "`, then the four derived characters of
`buffer[row]`; each line is 26 characters long before its newline and contains no
newline; the routine leaves the state, so `base_address` and `buffer`, as they
were. -/
theorem dump_format (s : State) :
    (refresh_display s).2 =
      igotoxy 3 0 ++ displayRow s 0 ++ displayRow s 1 ++ displayRow s 2 ++ displayRow s 3 ++
        displayRow s 4 ++ displayRow s 5 ++ displayRow s 6 ++ displayRow s 7 ++
        displayRow s 8 ++ displayRow s 9 ++ displayRow s 10 ++ displayRow s 11 ++
        displayRow s 12 ++ displayRow s 13 ++ displayRow s 14 ++ displayRow s 15 ∧
    '\n' ∉ igotoxy 3 0 ∧
    (∀ row : Fin buffer_size,
      displayRow s row = specLine s row ++ ['\n'] ∧
      specLine s row =
        hex8 true ((s.base_address + 4 * row.val) % 2 ^ 32) ++ " : ".toList ++
          hex8 true (s.buffer row) ++ " | ".toList ++
          [displayChar (s.buffer row) 0, displayChar (s.buffer row) 1,
            displayChar (s.buffer row) 2, displayChar (s.buffer row) 3] ∧
      (specLine s row).length = 26 ∧
      '\n' ∉ specLine s row ∧
      (hex8 true ((s.base_address + 4 * row.val) % 2 ^ 32)).length = 8 ∧
      (∀ c ∈ hex8 true ((s.base_address + 4 * row.val) % 2 ^ 32), upperHexValue c < 16) ∧
      ofUpperHex (hex8 true ((s.base_address + 4 * row.val) % 2 ^ 32)) =
        (s.base_address + 4 * row.val) % 2 ^ 32 ∧
      (hex8 true (s.buffer row)).length = 8 ∧
      (∀ c ∈ hex8 true (s.buffer row), upperHexValue c < 16) ∧
      ofUpperHex (hex8 true (s.buffer row)) = s.buffer row % 2 ^ 32) ∧
    (refresh_display s).1 = s ∧
    (refresh_display s).1.base_address = s.base_address ∧
    (refresh_display s).1.buffer = s.buffer := by
  refine ⟨rfl, separators.2.2.2.2, fun row => ?_, rfl, rfl, rfl⟩
  refine ⟨displayRow_eq s row, rfl, specLine_length s row, specLine_no_newline s row,
    hex8_length _ _, fun c hc => (hex8_digits _ c hc).1, ?_, hex8_length _ _,
    fun c hc => (hex8_digits _ c hc).1, hex8_value _⟩
  rw [hex8_value, Nat.mod_mod]

/-! ## Select and the stopped state -/

/-- C13: a tick whose edge mask contains Select and not Start returns with
`running = false`, also when a B edge fires in the same tick; the Select block
itself changes none of `base_address`, `nibble_select` and `buffer`. -/
theorem select_stops (K : KeyBits) (s : State) (cur : Nat) (mem : Nat → Nat)
    (hSel : (Vblank K cur mem s).state.key_delta &&& KEY_SELECT K ≠ 0)
    (hS : (Vblank K cur mem s).state.key_delta &&& KEY_START K = 0) :
    Vblank K cur mem s =
      TickResult.returned (Vblank K cur mem s).state (Vblank K cur mem s).output ∧
    (Vblank K cur mem s).state.running = false ∧
    ((Vblank K cur mem s).state.key_delta &&& KEY_B K ≠ 0 →
      (Vblank K cur mem s).state.running = false) ∧
    (onSelect K (beforeStart K cur mem s)).base_address =
      (beforeStart K cur mem s).base_address ∧
    (onSelect K (beforeStart K cur mem s)).nibble_select =
      (beforeStart K cur mem s).nibble_select ∧
    (onSelect K (beforeStart K cur mem s)).buffer = (beforeStart K cur mem s).buffer ∧
    (Vblank K cur mem s).state.base_address = (beforeStart K cur mem s).base_address ∧
    (Vblank K cur mem s).state.nibble_select = (beforeStart K cur mem s).nibble_select ∧
    (Vblank K cur mem s).state.buffer = (beforeStart K cur mem s).buffer := by
  rw [Vblank_key_delta] at hSel hS
  have hr : (Vblank K cur mem s).state.running = false := by
    rw [Vblank_running K cur mem s hS, if_pos hSel]
  refine ⟨Vblank_returned K cur mem s hS, hr, fun _ => hr, ?_, ?_, ?_,
    Vblank_base_address K cur mem s, ?_, Vblank_buffer K cur mem s⟩
  · rw [onSelect_eq]
  · rw [onSelect_eq]
  · rw [onSelect_eq]
  · rw [Vblank_nibble_select, beforeStart_nibble_select]

/-- C13 at a concrete tick: Select and B pressed together. -/
theorem select_stops_witness :
    (Vblank ndsKeys 6 (fun a => a) (reset_viewer zeroState)).state.key_delta &&&
      KEY_SELECT ndsKeys ≠ 0 ∧
    (Vblank ndsKeys 6 (fun a => a) (reset_viewer zeroState)).state.key_delta &&&
      KEY_START ndsKeys = 0 ∧
    (Vblank ndsKeys 6 (fun a => a) (reset_viewer zeroState)).state.key_delta &&&
      KEY_B ndsKeys ≠ 0 ∧
    (Vblank ndsKeys 6 (fun a => a) (reset_viewer zeroState)).state.running = false :=
  ⟨by decide, by decide, by decide,
    (select_stops ndsKeys (reset_viewer zeroState) 6 (fun a => a) (by decide)
      (by decide)).2.1⟩

theorem runStates_cons (K : KeyBits) (cur : Nat) (mem : Nat → Nat) (s : State)
    (rest : List (Nat × (Nat → Nat))) :
    runStates K s ((cur, mem) :: rest) = [(Vblank K cur mem s).state] ∨
    runStates K s ((cur, mem) :: rest) =
      (Vblank K cur mem s).state :: runStates K (Vblank K cur mem s).state rest := by
  rw [runStates]
  generalize Vblank K cur mem s = r
  cases r with
  | returned u o => exact Or.inr rfl
  | softReset u => exact Or.inl rfl

/-- A tick without a B edge does not set `running`. -/
theorem Vblank_running_of_not_B (K : KeyBits) (cur : Nat) (mem : Nat → Nat) (s : State)
    (hr : s.running = false)
    (hB : (Vblank K cur mem s).state.key_delta &&& KEY_B K = 0) :
    (Vblank K cur mem s).state.running = false := by
  rw [Vblank_key_delta] at hB
  rw [Vblank_eq]
  have h1 : (beforeStart K cur mem s).running = false := by
    rw [beforeStart_running, beforeA_running]
    simp [hB, hr]
  split
  · exact h1
  · simp only [TickResult.state, onSelect_eq, h1]
    split <;> rfl

theorem stopped_run (K : KeyBits) (ins : List (Nat × (Nat → Nat))) :
    ∀ s : State, s.running = false →
      (∀ t ∈ runStates K s ins, t.key_delta &&& KEY_B K = 0) →
      ∀ t ∈ runStates K s ins, t.running = false := by
  induction ins with
  | nil =>
    intro s _ _ t ht
    cases ht
  | cons x rest ih =>
    intro s hr hB t ht
    obtain ⟨c, m⟩ := x
    rcases runStates_cons K c m s rest with e | e
    · rw [e] at hB ht
      have h0 := hB _ (List.mem_singleton_self _)
      rw [List.mem_singleton.1 ht]
      exact Vblank_running_of_not_B K c m s hr h0
    · rw [e] at hB ht
      have h0 := hB _ (List.mem_cons_self _ _)
      have h1 := Vblank_running_of_not_B K c m s hr h0
      rcases List.mem_cons.1 ht with h | h
      · rw [h]; exact h1
      · exact ih _ h1 (fun u hu => hB u (List.mem_cons_of_mem _ hu)) t h

/-- C14, as the claim states it, fails: after a Select tick has set
`running = false`, a tick with a B edge runs `reset_viewer` and sets
`running = true` again. -/
theorem stopped_left_by_reset :
    (Vblank ndsKeys 4 (fun a => a) (reset_viewer zeroState)).state.key_delta &&&
      KEY_SELECT ndsKeys ≠ 0 ∧
    (Vblank ndsKeys 4 (fun a => a) (reset_viewer zeroState)).state.running = false ∧
    (∃ t, runTicks ndsKeys (reset_viewer zeroState) [(4, fun a => a), (2, fun a => a)] =
      some t ∧ t.running = true) :=
  ⟨by decide, by decide, ⟨_, rfl, by decide⟩⟩

/-- C14, amended: once a tick with a Select edge (and no Start edge) has set
`running = false`, `running` is false after each tick of every subsequent finite
run of ticks in none of which a B edge fires, whatever the samples and the
memory. -/
theorem stopped_absorbing (K : KeyBits) (s : State) (cur : Nat) (mem : Nat → Nat)
    (rest : List (Nat × (Nat → Nat)))
    (hSel : (Vblank K cur mem s).state.key_delta &&& KEY_SELECT K ≠ 0)
    (hS : (Vblank K cur mem s).state.key_delta &&& KEY_START K = 0)
    (hB : ∀ t ∈ runStates K (Vblank K cur mem s).state rest, t.key_delta &&& KEY_B K = 0) :
    (Vblank K cur mem s).state.running = false ∧
    ∀ t ∈ runStates K (Vblank K cur mem s).state rest, t.running = false := by
  rw [Vblank_key_delta] at hSel hS
  have hr : (Vblank K cur mem s).state.running = false := by
    rw [Vblank_running K cur mem s hS, if_pos hSel]
  exact ⟨hr, stopped_run K rest _ hr hB⟩

/-- C14 amended, at a concrete run: Select, then Up, A and Left pressed in turn. -/
theorem stopped_absorbing_witness :
    (Vblank ndsKeys 4 (fun a => a) (reset_viewer zeroState)).state.key_delta &&&
      KEY_SELECT ndsKeys ≠ 0 ∧
    (Vblank ndsKeys 4 (fun a => a) (reset_viewer zeroState)).state.key_delta &&&
      KEY_START ndsKeys = 0 ∧
    (∀ t ∈ runStates ndsKeys (Vblank ndsKeys 4 (fun a => a) (reset_viewer zeroState)).state
        [(64, fun a => a), (1, fun a => a), (32, fun a => a)],
      t.key_delta &&& KEY_B ndsKeys = 0) ∧
    (∀ t ∈ runStates ndsKeys (Vblank ndsKeys 4 (fun a => a) (reset_viewer zeroState)).state
        [(64, fun a => a), (1, fun a => a), (32, fun a => a)],
      t.running = false) :=
  ⟨by decide, by decide, by decide,
    (stopped_absorbing ndsKeys (reset_viewer zeroState) 4 (fun a => a)
      [(64, fun a => a), (1, fun a => a), (32, fun a => a)]
      (by decide) (by decide) (by decide)).2⟩

/-! ## Rendering -/

theorem Vblank_update (K : KeyBits) (cur : Nat) (mem : Nat → Nat) (s : State)
    (hS : keyDelta K s.key_new cur &&& KEY_START K = 0) :
    (Vblank K cur mem s).state.update = false := by
  rw [Vblank_eq]
  simp only [hS, ne_eq, not_true_eq_false, if_false, TickResult.state]

/-- The text of a tick that returns: the status line, then the dump when
`update` is set at the end of the blocks. -/
theorem Vblank_output (K : KeyBits) (cur : Nat) (mem : Nat → Nat) (s : State)
    (hS : keyDelta K s.key_new cur &&& KEY_START K = 0) :
    (Vblank K cur mem s).output =
      igotoxy 1 0 ++ statusLine (Vblank K cur mem s).state ++
        if (beforeStart K cur mem s).update then
          (refresh_display (Vblank K cur mem s).state).2
        else [] := by
  rw [Vblank_eq]
  simp only [hS, ne_eq, not_true_eq_false, if_false, TickResult.state, TickResult.output]
  rfl

/-- The fields of the state after a tick whose edge mask is `KEY_R` alone. -/
theorem Vblank_only_R (K : KeyBits) (hK : K.WF) (s : State) (cur : Nat) (mem : Nat → Nat)
    (hd : keyDelta K s.key_new cur = KEY_R K) :
    keyDelta K s.key_new cur &&& KEY_START K = 0 ∧
      (Vblank K cur mem s).state.base_address = add32 s.base_address 0x10 ∧
      (Vblank K cur mem s).state.nibble_select = s.nibble_select ∧
      (Vblank K cur mem s).state.buffer = s.buffer ∧
      (beforeStart K cur mem s).update = true := by
  have hS : keyDelta K s.key_new cur &&& KEY_START K = 0 := by
    rw [hd, mask_and_mask_eq_zero_iff K hK]; decide
  refine ⟨hS, ?_, ?_, ?_, ?_⟩
  · rw [Vblank_base_address, beforeStart_base_address, beforeA_base_address]
    simp [onUp_eq, onDown_eq, onRight_eq, onLeft_eq, updateKeyState_eq, hd,
      mask_and_mask_eq_zero_iff K hK, mask_ne_zero]
  · rw [Vblank_nibble_select, beforeA_nibble_select]
    simp [onRight_eq, onLeft_eq, updateKeyState_eq, hd, mask_and_mask_eq_zero_iff K hK]
  · rw [Vblank_buffer, beforeStart_buffer, beforeA_buffer]
    simp [hd, mask_and_mask_eq_zero_iff K hK]
  · rw [beforeStart_update]
    simp [hd, mask_and_mask_eq_zero_iff K hK, mask_ne_zero]

/-- The fields of the state after a tick whose edge mask is `KEY_L` alone. -/
theorem Vblank_only_L (K : KeyBits) (hK : K.WF) (s : State) (cur : Nat) (mem : Nat → Nat)
    (hd : keyDelta K s.key_new cur = KEY_L K) :
    keyDelta K s.key_new cur &&& KEY_START K = 0 ∧
      (Vblank K cur mem s).state.base_address = sub32 s.base_address 0x10 ∧
      (Vblank K cur mem s).state.nibble_select = s.nibble_select ∧
      (Vblank K cur mem s).state.buffer = s.buffer ∧
      (beforeStart K cur mem s).update = true := by
  have hS : keyDelta K s.key_new cur &&& KEY_START K = 0 := by
    rw [hd, mask_and_mask_eq_zero_iff K hK]; decide
  refine ⟨hS, ?_, ?_, ?_, ?_⟩
  · rw [Vblank_base_address, beforeStart_base_address, beforeA_base_address]
    simp [onUp_eq, onDown_eq, onRight_eq, onLeft_eq, updateKeyState_eq, hd,
      mask_and_mask_eq_zero_iff K hK, mask_ne_zero]
  · rw [Vblank_nibble_select, beforeA_nibble_select]
    simp [onRight_eq, onLeft_eq, updateKeyState_eq, hd, mask_and_mask_eq_zero_iff K hK]
  · rw [Vblank_buffer, beforeStart_buffer, beforeA_buffer]
    simp [hd, mask_and_mask_eq_zero_iff K hK]
  · rw [beforeStart_update]
    simp [hd, mask_and_mask_eq_zero_iff K hK, mask_ne_zero]

/-- C15: a tick whose only edge is R returns with
`base_address = (b + 0x10) mod 2 ^ 32`, a tick whose only edge is L with
`base_address = (b - 0x10) mod 2 ^ 32`; in both the status line and the dump are
written, and the 16 buffer words and `nibble_select` are unchanged; for a 32-bit
`b` an R tick followed by an L tick restores `b`. -/
theorem paging (K : KeyBits) (hK : K.WF) (s : State) (cur : Nat) (mem : Nat → Nat) :
    ((Vblank K cur mem s).state.key_delta = KEY_R K →
      Vblank K cur mem s =
        TickResult.returned (Vblank K cur mem s).state
          (igotoxy 1 0 ++ statusLine (Vblank K cur mem s).state ++
            (refresh_display (Vblank K cur mem s).state).2) ∧
      (Vblank K cur mem s).state.base_address = (s.base_address + 0x10) % 2 ^ 32 ∧
      (∀ i : Fin buffer_size, (Vblank K cur mem s).state.buffer i = s.buffer i) ∧
      (Vblank K cur mem s).state.nibble_select = s.nibble_select) ∧
    ((Vblank K cur mem s).state.key_delta = KEY_L K →
      Vblank K cur mem s =
        TickResult.returned (Vblank K cur mem s).state
          (igotoxy 1 0 ++ statusLine (Vblank K cur mem s).state ++
            (refresh_display (Vblank K cur mem s).state).2) ∧
      ((Vblank K cur mem s).state.base_address : Int) =
        ((s.base_address : Int) - 0x10) % 2 ^ 32 ∧
      (∀ i : Fin buffer_size, (Vblank K cur mem s).state.buffer i = s.buffer i) ∧
      (Vblank K cur mem s).state.nibble_select = s.nibble_select) ∧
    (∀ (c2 : Nat) (m2 : Nat → Nat), s.base_address < 2 ^ 32 →
      runDeltas K s [(cur, mem), (c2, m2)] = [KEY_R K, KEY_L K] →
      ∃ t, runTicks K s [(cur, mem), (c2, m2)] = some t ∧
        t.base_address = s.base_address) := by
  refine ⟨?_, ?_, ?_⟩
  · intro hd
    rw [Vblank_key_delta] at hd
    obtain ⟨hS, hb, hn, hbuf, hu⟩ := Vblank_only_R K hK s cur mem hd
    refine ⟨?_, by rw [hb, add32], fun i => by rw [hbuf], hn⟩
    have ho := Vblank_output K cur mem s hS
    rw [hu, if_pos rfl] at ho
    rw [← ho]
    exact Vblank_returned K cur mem s hS
  · intro hd
    rw [Vblank_key_delta] at hd
    obtain ⟨hS, hb, hn, hbuf, hu⟩ := Vblank_only_L K hK s cur mem hd
    refine ⟨?_, by rw [hb, sub32_cast]; rfl, fun i => by rw [hbuf], hn⟩
    have ho := Vblank_output K cur mem s hS
    rw [hu, if_pos rfl] at ho
    rw [← ho]
    exact Vblank_returned K cur mem s hS
  · intro c2 m2 hb hds
    have hSR : KEY_R K &&& KEY_START K = 0 := by
      rw [mask_and_mask_eq_zero_iff K hK]; decide
    obtain ⟨e1, e2⟩ := runDeltas_pair K s cur c2 mem m2 _ _ hds hSR
    obtain ⟨hS1, b1, _, _, _⟩ := Vblank_only_R K hK s cur mem e1
    obtain ⟨hS2, b2, _, _, _⟩ := Vblank_only_L K hK (Vblank K cur mem s).state c2 m2 e2
    refine ⟨(Vblank K c2 m2 (Vblank K cur mem s).state).state, ?_, ?_⟩
    · rw [runTicks_cons K cur mem s _ hS1, runTicks_cons K c2 m2 _ _ hS2]
      rfl
    · rw [b2, b1, sub32_add32 _ _ hb]

/-- C15 at concrete ticks: R pressed at `0xFFFFFFF8` wraps to `8`; R then L
restores the address. -/
theorem paging_witness :
    ndsKeys.WF ∧
    (Vblank ndsKeys 256 (fun a => a)
      { zeroState with base_address := 0xFFFFFFF8 }).state.key_delta = KEY_R ndsKeys ∧
    (Vblank ndsKeys 256 (fun a => a)
      { zeroState with base_address := 0xFFFFFFF8 }).state.base_address =
        (({ zeroState with base_address := 0xFFFFFFF8 } : State).base_address + 0x10) % 2 ^ 32 ∧
    (∃ t, runTicks ndsKeys { zeroState with base_address := 0xFFFFFFF8 }
        [(256, fun a => a), (512, fun a => a)] = some t ∧
      t.base_address = ({ zeroState with base_address := 0xFFFFFFF8 } : State).base_address) :=
  ⟨by decide, by decide,
    ((paging ndsKeys (by decide) { zeroState with base_address := 0xFFFFFFF8 } 256
      (fun a => a)).1 (by decide)).2.1,
    (paging ndsKeys (by decide) { zeroState with base_address := 0xFFFFFFF8 } 256
      (fun a => a)).2.2 512 (fun a => a) (by decide) (by decide)⟩

/-! ## The selected hex digit -/

theorem up_digit (b n : Nat) (hb : b < 2 ^ 32) (hn : n ≤ 7) :
    add32 b (16 ^ n) % 16 ^ n = b % 16 ^ n ∧
    add32 b (16 ^ n) / 16 ^ n % 16 = (b / 16 ^ n % 16 + 1) % 16 ∧
    (b / 16 ^ n % 16 ≠ 15 → add32 b (16 ^ n) / 16 ^ (n + 1) = b / 16 ^ (n + 1)) ∧
    (b / 16 ^ n % 16 = 15 →
      add32 b (16 ^ n) / 16 ^ (n + 1) = (b / 16 ^ (n + 1) + 1) % 16 ^ (7 - n)) := by
  unfold add32
  interval_cases n <;> norm_num <;> omega

theorem down_digit (b n : Nat) (hb : b < 2 ^ 32) (hn : n ≤ 7) :
    sub32 b (16 ^ n) % 16 ^ n = b % 16 ^ n ∧
    sub32 b (16 ^ n) / 16 ^ n % 16 = (b / 16 ^ n % 16 + 15) % 16 ∧
    (b / 16 ^ n % 16 ≠ 0 → sub32 b (16 ^ n) / 16 ^ (n + 1) = b / 16 ^ (n + 1)) ∧
    (b / 16 ^ n % 16 = 0 →
      sub32 b (16 ^ n) / 16 ^ (n + 1) =
        (b / 16 ^ (n + 1) + (16 ^ (7 - n) - 1)) % 16 ^ (7 - n)) := by
  unfold sub32
  interval_cases n <;> norm_num <;> omega

/-- C16: for a 32-bit `base_address = b` and `nibble_select = n` in `[0,7]`, a tick
whose only edge is Up leaves the low `4 * n` bits of `b`, makes hex digit `n`
equal to `(digit n of b + 1) mod 16`, and changes the digits above `n` only by
the carry when digit `n` of `b` was `0xF`; a tick whose only edge is Down leaves
the low `4 * n` bits, makes digit `n` equal to `(digit n of b - 1) mod 16`, and
changes the digits above `n` only by the borrow when digit `n` of `b` was `0`. -/
theorem digit_step (K : KeyBits) (hK : K.WF) (s : State) (cur : Nat) (mem : Nat → Nat)
    (hb : s.base_address < 2 ^ 32) (hn : s.nibble_select ≤ 7) :
    ((Vblank K cur mem s).state.key_delta = KEY_UP K →
      (Vblank K cur mem s).state.base_address % 16 ^ s.nibble_select =
        s.base_address % 16 ^ s.nibble_select ∧
      (Vblank K cur mem s).state.base_address / 16 ^ s.nibble_select % 16 =
        (s.base_address / 16 ^ s.nibble_select % 16 + 1) % 16 ∧
      (s.base_address / 16 ^ s.nibble_select % 16 ≠ 15 →
        (Vblank K cur mem s).state.base_address / 16 ^ (s.nibble_select + 1) =
          s.base_address / 16 ^ (s.nibble_select + 1)) ∧
      (s.base_address / 16 ^ s.nibble_select % 16 = 15 →
        (Vblank K cur mem s).state.base_address / 16 ^ (s.nibble_select + 1) =
          (s.base_address / 16 ^ (s.nibble_select + 1) + 1) % 16 ^ (7 - s.nibble_select))) ∧
    ((Vblank K cur mem s).state.key_delta = KEY_DOWN K →
      (Vblank K cur mem s).state.base_address % 16 ^ s.nibble_select =
        s.base_address % 16 ^ s.nibble_select ∧
      (Vblank K cur mem s).state.base_address / 16 ^ s.nibble_select % 16 =
        (s.base_address / 16 ^ s.nibble_select % 16 + 15) % 16 ∧
      (s.base_address / 16 ^ s.nibble_select % 16 ≠ 0 →
        (Vblank K cur mem s).state.base_address / 16 ^ (s.nibble_select + 1) =
          s.base_address / 16 ^ (s.nibble_select + 1)) ∧
      (s.base_address / 16 ^ s.nibble_select % 16 = 0 →
        (Vblank K cur mem s).state.base_address / 16 ^ (s.nibble_select + 1) =
          (s.base_address / 16 ^ (s.nibble_select + 1) + (16 ^ (7 - s.nibble_select) - 1)) %
            16 ^ (7 - s.nibble_select))) := by
  constructor
  · intro hd
    rw [Vblank_key_delta] at hd
    obtain ⟨_, hbase, _⟩ := Vblank_only_up K hK s cur mem hd
    rw [hbase, nibbleStep_eq _ hn]
    exact up_digit _ _ hb hn
  · intro hd
    rw [Vblank_key_delta] at hd
    obtain ⟨_, hbase, _⟩ := Vblank_only_down K hK s cur mem hd
    rw [hbase, nibbleStep_eq _ hn]
    exact down_digit _ _ hb hn

/-- C16 at a concrete tick: Up on digit 1 of `0x00000FF4` gives `0x00001004`:
the low digit stays 4, digit 1 goes from F to 0, and the carry reaches the
digits above. -/
theorem digit_step_witness :
    ndsKeys.WF ∧
    (Vblank ndsKeys 64 (fun a => a)
      { zeroState with base_address := 0x00000FF4, nibble_select := 1 }).state.key_delta =
        KEY_UP ndsKeys ∧
    (Vblank ndsKeys 64 (fun a => a)
      { zeroState with base_address := 0x00000FF4, nibble_select := 1 }).state.base_address =
        0x00001004 ∧
    (Vblank ndsKeys 64 (fun a => a)
      { zeroState with base_address := 0x00000FF4, nibble_select := 1 }).state.base_address /
        16 ^ ({ zeroState with base_address := 0x00000FF4, nibble_select := 1 } : State).nibble_select
          % 16 =
      (({ zeroState with base_address := 0x00000FF4, nibble_select := 1 } : State).base_address /
        16 ^ ({ zeroState with base_address := 0x00000FF4, nibble_select := 1 } : State).nibble_select
          % 16 + 1) % 16 :=
  ⟨by decide, by decide, by decide,
    ((digit_step ndsKeys (by decide)
      { zeroState with base_address := 0x00000FF4, nibble_select := 1 } 64 (fun a => a)
      (by decide) (by decide)).1 (by decide)).2.1⟩

/-! ## Evaluation order -/

theorem or_mask_and_mask_ne_zero_iff (K : KeyBits) (hK : K.WF) (a b c : Button) :
    (K.mask a ||| K.mask b) &&& K.mask c ≠ 0 ↔ (a = c ∨ b = c) := by
  have h : (K.mask a ||| K.mask b) &&& BIT (K.bit c) ≠ 0 ↔ (a = c ∨ b = c) := by
    rw [and_BIT_ne_zero_iff, Nat.testBit_or, KeyBits.mask, KeyBits.mask, BIT_testBit,
      BIT_testBit]
    simp only [Bool.or_eq_true, decide_eq_true_eq]
    constructor
    · rintro (h | h)
      · exact Or.inl (hK.1 _ _ h)
      · exact Or.inr (hK.1 _ _ h)
    · rintro (h | h)
      · exact Or.inl (by rw [h])
      · exact Or.inr (by rw [h])
  exact h

theorem or_mask_and_mask_eq_zero_iff (K : KeyBits) (hK : K.WF) (a b c : Button) :
    (K.mask a ||| K.mask b) &&& K.mask c = 0 ↔ ¬ (a = c ∨ b = c) := by
  rw [← or_mask_and_mask_ne_zero_iff K hK, Ne, not_not]

/-- C17: the blocks of a tick run in the order of the source, cursor before
address and Down before Up; a tick whose edge mask is exactly Left and Up
returns with `nibble_select = (n + 1) mod 8` and
`base_address = (b + (1 << (4 * ((n + 1) mod 8)))) mod 2 ^ 32`, the step taken
with the updated cursor; a tick whose edge mask is exactly Up and Down returns
with `base_address = b`. -/
theorem evaluation_order (K : KeyBits) (hK : K.WF) (s : State) (cur : Nat)
    (mem : Nat → Nat) (hb : s.base_address < 2 ^ 32) (hn : s.nibble_select ≤ 7) :
    beforeA K cur s =
      onB K (onUp K (onDown K (onRight K (onLeft K
        (updateKeyState K cur { s with frame := incInt32 s.frame }))))) ∧
    ((Vblank K cur mem s).state.key_delta = KEY_LEFT K ||| KEY_UP K →
      Vblank K cur mem s =
        TickResult.returned (Vblank K cur mem s).state (Vblank K cur mem s).output ∧
      (Vblank K cur mem s).state.nibble_select = (s.nibble_select + 1) % 8 ∧
      (Vblank K cur mem s).state.base_address =
        (s.base_address + (1 <<< (4 * ((s.nibble_select + 1) % 8)))) % 2 ^ 32) ∧
    ((Vblank K cur mem s).state.key_delta = KEY_UP K ||| KEY_DOWN K →
      Vblank K cur mem s =
        TickResult.returned (Vblank K cur mem s).state (Vblank K cur mem s).output ∧
      (Vblank K cur mem s).state.base_address = s.base_address ∧
      (Vblank K cur mem s).state.nibble_select = s.nibble_select) := by
  refine ⟨rfl, ?_, ?_⟩
  · intro hd
    rw [Vblank_key_delta] at hd
    have hS : keyDelta K s.key_new cur &&& KEY_START K = 0 := by
      rw [hd, or_mask_and_mask_eq_zero_iff K hK]; decide
    have hle : (s.nibble_select + 1) % 8 ≤ 7 := by omega
    refine ⟨Vblank_returned K cur mem s hS, ?_, ?_⟩
    · rw [Vblank_nibble_select, beforeA_nibble_select]
      simp [onRight_eq, onLeft_eq, updateKeyState_eq, hd,
        or_mask_and_mask_eq_zero_iff K hK, add32_and_seven _ hn]
    · rw [Vblank_base_address, beforeStart_base_address, beforeA_base_address]
      simp [onUp_eq, onDown_eq, onRight_eq, onLeft_eq, updateKeyState_eq, hd,
        or_mask_and_mask_eq_zero_iff K hK, add32_and_seven _ hn, nibbleStep_eq _ hle]
      rw [add32, Nat.one_shiftLeft, Nat.pow_mul]
      norm_num
  · intro hd
    rw [Vblank_key_delta] at hd
    have hS : keyDelta K s.key_new cur &&& KEY_START K = 0 := by
      rw [hd, or_mask_and_mask_eq_zero_iff K hK]; decide
    refine ⟨Vblank_returned K cur mem s hS, ?_, ?_⟩
    · rw [Vblank_base_address, beforeStart_base_address, beforeA_base_address]
      simp [onUp_eq, onDown_eq, onRight_eq, onLeft_eq, updateKeyState_eq, hd,
        or_mask_and_mask_eq_zero_iff K hK]
      exact add32_sub32 _ _ hb
    · rw [Vblank_nibble_select, beforeA_nibble_select]
      simp [onRight_eq, onLeft_eq, updateKeyState_eq, hd,
        or_mask_and_mask_eq_zero_iff K hK]

/-- C17 at concrete ticks: Left and Up pressed together with the cursor on digit
7 step digit 0; Up and Down pressed together leave the address. -/
theorem evaluation_order_witness :
    ndsKeys.WF ∧
    (Vblank ndsKeys 96 (fun a => a)
      { zeroState with base_address := 0x100, nibble_select := 7 }).state.key_delta =
        KEY_LEFT ndsKeys ||| KEY_UP ndsKeys ∧
    (Vblank ndsKeys 96 (fun a => a)
      { zeroState with base_address := 0x100, nibble_select := 7 }).state.nibble_select =
        (({ zeroState with base_address := 0x100, nibble_select := 7 } : State).nibble_select
          + 1) % 8 ∧
    (Vblank ndsKeys 96 (fun a => a)
      { zeroState with base_address := 0x100, nibble_select := 7 }).state.base_address =
        0x101 ∧
    (Vblank ndsKeys 192 (fun a => a)
      { zeroState with base_address := 0x100, nibble_select := 7 }).state.key_delta =
        KEY_UP ndsKeys ||| KEY_DOWN ndsKeys ∧
    (Vblank ndsKeys 192 (fun a => a)
      { zeroState with base_address := 0x100, nibble_select := 7 }).state.base_address =
        ({ zeroState with base_address := 0x100, nibble_select := 7 } : State).base_address :=
  ⟨by decide, by decide,
    ((evaluation_order ndsKeys (by decide)
      { zeroState with base_address := 0x100, nibble_select := 7 } 96 (fun a => a)
      (by decide) (by decide)).2.1 (by decide)).2.1,
    by decide, by decide,
    ((evaluation_order ndsKeys (by decide)
      { zeroState with base_address := 0x100, nibble_select := 7 } 192 (fun a => a)
      (by decide) (by decide)).2.2 (by decide)).2.1⟩

/-! ## The redraw flag and the frame of a tick -/

theorem beforeStart_update_iff (K : KeyBits) (cur : Nat) (mem : Nat → Nat) (s : State) :
    (beforeStart K cur mem s).update = true ↔
      (s.update = true ∨ keyDelta K s.key_new cur &&& KEY_B K ≠ 0 ∨
        keyDelta K s.key_new cur &&& KEY_A K ≠ 0 ∨
        keyDelta K s.key_new cur &&& KEY_R K ≠ 0 ∨
        keyDelta K s.key_new cur &&& KEY_L K ≠ 0) := by
  rw [beforeStart_update, beforeA_update]
  by_cases hL : keyDelta K s.key_new cur &&& KEY_L K = 0 <;>
  by_cases hR : keyDelta K s.key_new cur &&& KEY_R K = 0 <;>
  by_cases hA : keyDelta K s.key_new cur &&& KEY_A K = 0 <;>
  by_cases hB : keyDelta K s.key_new cur &&& KEY_B K = 0 <;>
  simp [hL, hR, hA, hB]

theorem refresh_display_ne_nil (s : State) : (refresh_display s).2 ≠ [] := by
  intro h
  have h1 := congrArg List.length h
  have h2 : (refresh_display s).2 =
      igotoxy 3 0 ++ displayRow s 0 ++ displayRow s 1 ++ displayRow s 2 ++ displayRow s 3 ++
        displayRow s 4 ++ displayRow s 5 ++ displayRow s 6 ++ displayRow s 7 ++
        displayRow s 8 ++ displayRow s 9 ++ displayRow s 10 ++ displayRow s 11 ++
        displayRow s 12 ++ displayRow s 13 ++ displayRow s 14 ++ displayRow s 15 := rfl
  rw [h2] at h1
  simp [igotoxy] at h1

/-! ## The status line -/

theorem hexDigit_lower (d : Nat) (hd : d < 16) :
    lowerHexValue (hexDigit false d) = d ∧ hexDigit false d ≠ '\n' := by
  interval_cases d <;> decide

theorem hex8_lower_digits (v : Nat) :
    ∀ c ∈ hex8 false v, lowerHexValue c < 16 ∧ c ≠ '\n' := by
  intro c hc
  simp only [hex8, List.map_cons, List.map_nil, List.mem_cons, List.mem_singleton,
    List.not_mem_nil, or_false] at hc
  rcases hc with h | h | h | h | h | h | h | h <;>
    · subst h
      have hlt : ∀ k : Nat, (v >>> (4 * k)) % 16 < 16 := fun k => Nat.mod_lt _ (by decide)
      exact ⟨by rw [(hexDigit_lower _ (hlt _)).1]; exact hlt _, (hexDigit_lower _ (hlt _)).2⟩

theorem hex8_lower_value (v : Nat) : ofLowerHex (hex8 false v) = v % 2 ^ 32 := by
  have hv : ∀ d : Nat, lowerHexValue (hexDigit false (d % 16)) = d % 16 :=
    fun d => (hexDigit_lower _ (Nat.mod_lt _ (by decide))).1
  simp only [ofLowerHex, hex8, List.map_cons, List.map_nil, List.foldl_cons, List.foldl_nil,
    hv, Nat.shiftRight_eq_div_pow]
  norm_num
  omega

theorem statusLine_eq (t : State) :
    statusLine t =
      "Base: ".toList ++ hex8 false t.base_address ++ " Nibble:".toList ++
        (Nat.repr (t.nibble_select % 2 ^ 32)).toList ++ ['\n'] := rfl

theorem repr_small (n : Nat) (hn : n ≤ 7) :
    (Nat.repr (n % 2 ^ 32)).toList = [Char.ofNat (48 + n)] := by
  interval_cases n <;> rfl

theorem digitChar_ne_newline (d : Nat) (hd : d < 10) : Nat.digitChar d ≠ '\n' := by
  interval_cases d <;> decide

theorem toDigitsCore_no_newline (f : Nat) :
    ∀ (n : Nat) (ds : List Char), '\n' ∉ ds → '\n' ∉ Nat.toDigitsCore 10 f n ds := by
  induction f with
  | zero =>
    intro n ds h
    simpa [Nat.toDigitsCore] using h
  | succ f ih =>
    intro n ds h
    have hd : '\n' ∉ Nat.digitChar (n % 10) :: ds := by
      intro hm
      rcases List.mem_cons.1 hm with e | e
      · exact digitChar_ne_newline _ (Nat.mod_lt _ (by decide)) e.symm
      · exact h e
    rw [Nat.toDigitsCore]
    split
    · exact hd
    · exact ih _ _ hd

theorem repr_no_newline (n : Nat) : '\n' ∉ (Nat.repr n).toList := by
  have h : (Nat.repr n).toList = Nat.toDigitsCore 10 (n + 1) n [] := rfl
  rw [h]
  exact toDigitsCore_no_newline _ _ _ (List.not_mem_nil _)

theorem statusLine_one_line (t : State) :
    '\n' ∉ "Base: ".toList ++ hex8 false t.base_address ++ " Nibble:".toList ++
      (Nat.repr (t.nibble_select % 2 ^ 32)).toList := by
  intro h
  simp only [List.mem_append] at h
  rcases h with ((h | h) | h) | h
  · exact absurd h (by decide)
  · exact (hex8_lower_digits _ _ h).2 rfl
  · exact absurd h (by decide)
  · exact repr_no_newline _ h

/-! ## The status line does not occur in the dump -/

theorem hasRun_skip (p : Char → Bool) (n : Nat) (pre : List Char) :
    ∀ (k : Nat) (rest : List Char), pre ≠ [] → (∀ c ∈ pre, p c = false) →
      hasRun p n k (pre ++ rest) = hasRun p n 0 rest := by
  induction pre with
  | nil => intro k rest h _; exact absurd rfl h
  | cons c pre ih =>
    intro k rest _ hp
    have hc : p c = false := hp c (List.mem_cons_self _ _)
    rw [List.cons_append, hasRun, hc]
    simp only [Bool.false_eq_true, if_false]
    cases pre with
    | nil => rfl
    | cons d pre =>
      exact ih 0 rest (List.cons_ne_nil _ _) (fun x hx => hp x (List.mem_cons_of_mem _ hx))

theorem hasRun_short (p : Char → Bool) (n : Nat) (mid : List Char) :
    ∀ (k : Nat) (c : Char) (rest : List Char), k + mid.length < n → p c = false →
      hasRun p n k (mid ++ c :: rest) = hasRun p n 0 rest := by
  induction mid with
  | nil =>
    intro k c rest _ hc
    rw [List.nil_append, hasRun, hc]
    simp only [Bool.false_eq_true, if_false]
  | cons d mid ih =>
    intro k c rest hk hc
    rw [List.length_cons] at hk
    rw [List.cons_append, hasRun]
    by_cases hd : p d = true
    · rw [if_pos hd, if_neg (by omega)]
      exact ih (k + 1) c rest (by omega) hc
    · rw [if_neg hd]
      exact ih 0 c rest (by omega) hc

theorem hasRun_of_all (p : Char → Bool) (n : Nat) (w : List Char) :
    ∀ (k : Nat) (t : List Char), (∀ c ∈ w, p c = true) → n ≤ k + w.length → w ≠ [] →
      hasRun p n k (w ++ t) = true := by
  induction w with
  | nil => intro k t _ _ h; exact absurd rfl h
  | cons c w ih =>
    intro k t hp hlen _
    rw [List.length_cons] at hlen
    rw [List.cons_append, hasRun, if_pos (hp c (List.mem_cons_self _ _))]
    by_cases h : n ≤ k + 1
    · rw [if_pos h]
    · rw [if_neg h]
      have hw : w ≠ [] := by
        intro e
        rw [e, List.length_nil] at hlen
        omega
      exact ih (k + 1) t (fun x hx => hp x (List.mem_cons_of_mem _ hx)) (by omega) hw

theorem hasRun_of_infix (p : Char → Bool) (n : Nat) (w : List Char)
    (hp : ∀ c ∈ w, p c = true) (hlen : n ≤ w.length) (hw : w ≠ []) (s : List Char) :
    ∀ (k : Nat) (t : List Char), hasRun p n k (s ++ (w ++ t)) = true := by
  induction s with
  | nil =>
    intro k t
    exact hasRun_of_all p n w k t hp (by omega) hw
  | cons c s ih =>
    intro k t
    rw [List.cons_append, hasRun]
    split
    · split
      · rfl
      · exact ih _ t
    · exact ih _ t

theorem hexDigit_upper_not_lower (d : Nat) (hd : d < 16) :
    (hexDigit true d).isLower = false := by
  interval_cases d <;> decide

theorem hex8_upper_not_lower (v : Nat) : ∀ c ∈ hex8 true v, c.isLower = false := by
  intro c hc
  simp only [hex8, List.map_cons, List.map_nil, List.mem_cons, List.mem_singleton,
    List.not_mem_nil, or_false] at hc
  rcases hc with h | h | h | h | h | h | h | h <;>
    · subst h
      exact hexDigit_upper_not_lower _ (Nat.mod_lt _ (by decide))

/-- A dump row holds no five consecutive lower-case letters and ends any such
run. -/
theorem hasRun_displayRow (s : State) (row : Fin buffer_size) (k : Nat) (rest : List Char) :
    hasRun Char.isLower 5 k (displayRow s row ++ rest) = hasRun Char.isLower 5 0 rest := by
  have e : displayRow s row ++ rest =
      (hex8 true ((s.base_address + 4 * row.val) % 2 ^ 32) ++ " : ".toList ++
        hex8 true (s.buffer row) ++ " | ".toList) ++
      ([displayChar (s.buffer row) 0, displayChar (s.buffer row) 1,
        displayChar (s.buffer row) 2, displayChar (s.buffer row) 3] ++ '\n' :: rest) := by
    rw [displayRow_eq, specLine]
    simp only [List.append_assoc, List.cons_append, List.nil_append]
  rw [e, hasRun_skip, hasRun_short]
  · simp
  · decide
  · intro h
    have := congrArg List.length h
    simp [hex8_length] at this
  · intro c hc
    simp only [List.mem_append] at hc
    rcases hc with ((h | h) | h) | h
    · exact hex8_upper_not_lower _ c h
    · revert c; decide
    · exact hex8_upper_not_lower _ c h
    · revert c; decide

theorem hasRun_dump (s : State) : hasRun Char.isLower 5 0 (refresh_display s).2 = false := by
  have e : (refresh_display s).2 =
      igotoxy 3 0 ++ displayRow s 0 ++ displayRow s 1 ++ displayRow s 2 ++ displayRow s 3 ++
        displayRow s 4 ++ displayRow s 5 ++ displayRow s 6 ++ displayRow s 7 ++
        displayRow s 8 ++ displayRow s 9 ++ displayRow s 10 ++ displayRow s 11 ++
        displayRow s 12 ++ displayRow s 13 ++ displayRow s 14 ++ displayRow s 15 := rfl
  rw [e, ← List.append_nil (displayRow s 15)]
  simp only [List.append_assoc]
  rw [hasRun_skip _ _ _ _ _ (by decide) (by decide)]
  simp only [hasRun_displayRow]
  rfl

theorem ibble_in_statusLine (t : State) :
    ['i', 'b', 'b', 'l', 'e'] <:+: statusLine t :=
  ⟨"Base: ".toList ++ hex8 false t.base_address ++ " N".toList,
    ":".toList ++ (Nat.repr (t.nibble_select % 2 ^ 32)).toList ++ ['\n'], by
      rw [statusLine_eq]
      have h : " Nibble:".toList = " N".toList ++ (['i', 'b', 'b', 'l', 'e'] ++ ":".toList) := rfl
      rw [h]
      simp only [List.append_assoc]⟩

/-- The status line is no part of the dump: it holds the five lower-case letters
of `Nibble` in a row, and the dump has at most four characters in a row that can
be lower-case letters. -/
theorem statusLine_not_in_dump (t u : State) : ¬ statusLine t <:+: (refresh_display u).2 := by
  intro h
  obtain ⟨a, b, hab⟩ := List.IsInfix.trans (ibble_in_statusLine t) h
  have h1 := hasRun_of_infix Char.isLower 5 ['i', 'b', 'b', 'l', 'e'] (by decide) (by decide)
    (by decide) a 0 b
  rw [← List.append_assoc, hab, hasRun_dump] at h1
  exact absurd h1 (by decide)

/-- C18: a tick that does not end in the soft reset returns with `update = false`
after writing the status line once, followed by the 16-line dump if and only if
`update` was set on entry or the edge mask contains one of B, A, R, L. The
status line is the text `Base: `, the eight lower-case hex digits of
`base_address`, ` Nibble:`, `nibble_select` in decimal and a newline, a single
line written after the cursor sequence `ESC [ 1 ; 0 H`; it does not occur in the
dump, so the text of the tick holds it exactly once. -/
theorem redraw_consumed (K : KeyBits) (s : State) (cur : Nat) (mem : Nat → Nat)
    (hS : (Vblank K cur mem s).state.key_delta &&& KEY_START K = 0) :
    Vblank K cur mem s =
      TickResult.returned (Vblank K cur mem s).state (Vblank K cur mem s).output ∧
    (Vblank K cur mem s).state.update = false ∧
    ((s.update = true ∨ (Vblank K cur mem s).state.key_delta &&& KEY_B K ≠ 0 ∨
        (Vblank K cur mem s).state.key_delta &&& KEY_A K ≠ 0 ∨
        (Vblank K cur mem s).state.key_delta &&& KEY_R K ≠ 0 ∨
        (Vblank K cur mem s).state.key_delta &&& KEY_L K ≠ 0) →
      (Vblank K cur mem s).output =
        igotoxy 1 0 ++ statusLine (Vblank K cur mem s).state ++
          (refresh_display (Vblank K cur mem s).state).2) ∧
    (¬ (s.update = true ∨ (Vblank K cur mem s).state.key_delta &&& KEY_B K ≠ 0 ∨
        (Vblank K cur mem s).state.key_delta &&& KEY_A K ≠ 0 ∨
        (Vblank K cur mem s).state.key_delta &&& KEY_R K ≠ 0 ∨
        (Vblank K cur mem s).state.key_delta &&& KEY_L K ≠ 0) →
      (Vblank K cur mem s).output =
        igotoxy 1 0 ++ statusLine (Vblank K cur mem s).state) ∧
    (refresh_display (Vblank K cur mem s).state).2 ≠ [] ∧
    igotoxy 1 0 = [Char.ofNat 0x1b, '[', '1', ';', '0', 'H'] ∧
    statusLine (Vblank K cur mem s).state =
      "Base: ".toList ++ hex8 false (Vblank K cur mem s).state.base_address ++
        " Nibble:".toList ++
        (Nat.repr ((Vblank K cur mem s).state.nibble_select % 2 ^ 32)).toList ++ ['\n'] ∧
    (hex8 false (Vblank K cur mem s).state.base_address).length = 8 ∧
    (∀ c ∈ hex8 false (Vblank K cur mem s).state.base_address, lowerHexValue c < 16) ∧
    ofLowerHex (hex8 false (Vblank K cur mem s).state.base_address) =
      (Vblank K cur mem s).state.base_address % 2 ^ 32 ∧
    ((Vblank K cur mem s).state.nibble_select ≤ 7 →
      (Nat.repr ((Vblank K cur mem s).state.nibble_select % 2 ^ 32)).toList =
        [Char.ofNat (48 + (Vblank K cur mem s).state.nibble_select)]) ∧
    '\n' ∉ "Base: ".toList ++ hex8 false (Vblank K cur mem s).state.base_address ++
      " Nibble:".toList ++
      (Nat.repr ((Vblank K cur mem s).state.nibble_select % 2 ^ 32)).toList ∧
    ¬ statusLine (Vblank K cur mem s).state <:+:
      (refresh_display (Vblank K cur mem s).state).2 := by
  rw [Vblank_key_delta] at hS
  simp only [Vblank_key_delta]
  refine ⟨Vblank_returned K cur mem s hS, Vblank_update K cur mem s hS, ?_, ?_,
    refresh_display_ne_nil _, by decide, statusLine_eq _, hex8_length _ _,
    fun c hc => (hex8_lower_digits _ c hc).1, hex8_lower_value _,
    fun h => repr_small _ h, statusLine_one_line _, statusLine_not_in_dump _ _⟩
  · intro h
    rw [Vblank_output K cur mem s hS,
      if_pos ((beforeStart_update_iff K cur mem s).2 h)]
  · intro h
    have hu : ¬ (beforeStart K cur mem s).update = true :=
      fun e => h ((beforeStart_update_iff K cur mem s).1 e)
    rw [Vblank_output K cur mem s hS, if_neg hu, List.append_nil]

/-- C18 at concrete ticks: after the reset the first tick writes the status line
`Base: ffff0000 Nibble:0` and the dump, and a following tick with only Up
pressed writes the status line alone. -/
theorem redraw_consumed_witness :
    (Vblank ndsKeys 0 (fun a => a) (reset_viewer zeroState)).state.key_delta &&&
      KEY_START ndsKeys = 0 ∧
    (Vblank ndsKeys 0 (fun a => a) (reset_viewer zeroState)).state.update = false ∧
    (Vblank ndsKeys 0 (fun a => a) (reset_viewer zeroState)).output =
      igotoxy 1 0 ++ statusLine (Vblank ndsKeys 0 (fun a => a) (reset_viewer zeroState)).state ++
        (refresh_display (Vblank ndsKeys 0 (fun a => a) (reset_viewer zeroState)).state).2 ∧
    statusLine (Vblank ndsKeys 0 (fun a => a) (reset_viewer zeroState)).state =
      "Base: ffff0000 Nibble:0\n".toList ∧
    (Vblank ndsKeys 64 (fun a => a) zeroState).state.key_delta &&& KEY_START ndsKeys = 0 ∧
    (Vblank ndsKeys 64 (fun a => a) zeroState).output =
      igotoxy 1 0 ++ statusLine (Vblank ndsKeys 64 (fun a => a) zeroState).state ∧
    (Vblank ndsKeys 64 (fun a => a) zeroState).output =
      [Char.ofNat 0x1b, '[', '1', ';', '0', 'H'] ++ "Base: 00000001 Nibble:0\n".toList :=
  ⟨by decide,
    (redraw_consumed ndsKeys (reset_viewer zeroState) 0 (fun a => a) (by decide)).2.1,
    (redraw_consumed ndsKeys (reset_viewer zeroState) 0 (fun a => a) (by decide)).2.2.1
      (Or.inl (by decide)),
    by decide,
    by decide,
    (redraw_consumed ndsKeys zeroState 64 (fun a => a) (by decide)).2.2.2.1 (by decide),
    by decide⟩

theorem keyDelta_steady (K : KeyBits) (c : Nat) (hX : c &&& KEY_X K = 0) :
    keyDelta K c c = 0 := by
  rw [keyDelta_of_not_toggle K c c hX, Nat.xor_self, Nat.zero_and]

/-- C19: when the sample equals the previous sample and does not contain
`KEY_X`, the edge mask is empty and the tick returns with `running`,
`nibble_select`, `base_address` and all 16 buffer words unchanged. -/
theorem steady_hold (K : KeyBits) (s : State) (cur : Nat) (mem : Nat → Nat)
    (hsame : cur = s.key_new) (hX : cur &&& KEY_X K = 0) :
    (Vblank K cur mem s).state.key_delta = 0 ∧
    Vblank K cur mem s =
      TickResult.returned (Vblank K cur mem s).state (Vblank K cur mem s).output ∧
    (Vblank K cur mem s).state.running = s.running ∧
    (Vblank K cur mem s).state.nibble_select = s.nibble_select ∧
    (Vblank K cur mem s).state.base_address = s.base_address ∧
    (∀ i : Fin buffer_size, (Vblank K cur mem s).state.buffer i = s.buffer i) := by
  have hd : keyDelta K s.key_new cur = 0 := by
    rw [← hsame]; exact keyDelta_steady K cur hX
  have hS : keyDelta K s.key_new cur &&& KEY_START K = 0 := by rw [hd, Nat.zero_and]
  refine ⟨by rw [Vblank_key_delta, hd], Vblank_returned K cur mem s hS, ?_, ?_, ?_, ?_⟩
  · rw [Vblank_running K cur mem s hS, beforeA_running]
    simp [hd]
  · rw [Vblank_nibble_select, beforeA_nibble_select]
    simp [onRight_eq, onLeft_eq, updateKeyState_eq, hd]
  · rw [Vblank_base_address, beforeStart_base_address, beforeA_base_address]
    simp [onUp_eq, onDown_eq, onRight_eq, onLeft_eq, updateKeyState_eq, hd]
  · intro i
    rw [Vblank_buffer, beforeStart_buffer, beforeA_buffer]
    simp [hd]

/-- C19 at a concrete tick: Up and A stay held. -/
theorem steady_hold_witness :
    (65 : Nat) = ({ reset_viewer zeroState with key_new := 65 } : State).key_new ∧
    65 &&& KEY_X ndsKeys = 0 ∧
    (Vblank ndsKeys 65 (fun a => a)
      { reset_viewer zeroState with key_new := 65 }).state.key_delta = 0 ∧
    (Vblank ndsKeys 65 (fun a => a)
      { reset_viewer zeroState with key_new := 65 }).state.base_address =
        ({ reset_viewer zeroState with key_new := 65 } : State).base_address :=
  ⟨rfl, by decide,
    (steady_hold ndsKeys { reset_viewer zeroState with key_new := 65 } 65 (fun a => a) rfl
      (by decide)).1,
    (steady_hold ndsKeys { reset_viewer zeroState with key_new := 65 } 65 (fun a => a) rfl
      (by decide)).2.2.2.2.1⟩

/-- C20: in a tick whose final edge mask contains neither A nor B all 16 buffer
words are the same after the tick as before it, whatever other edges fire; the
lines of the dump then pair the old words with the addresses counted from the
new `base_address`, and the dump is written when an R or L edge fires and the
tick does not end in the soft reset. -/
theorem buffer_frame (K : KeyBits) (s : State) (cur : Nat) (mem : Nat → Nat)
    (hA : (Vblank K cur mem s).state.key_delta &&& KEY_A K = 0)
    (hB : (Vblank K cur mem s).state.key_delta &&& KEY_B K = 0) :
    (∀ i : Fin buffer_size, (Vblank K cur mem s).state.buffer i = s.buffer i) ∧
    (∀ row : Fin buffer_size,
      specLine (Vblank K cur mem s).state row =
        hex8 true (((Vblank K cur mem s).state.base_address + 4 * row.val) % 2 ^ 32) ++
          " : ".toList ++ hex8 true (s.buffer row) ++ " | ".toList ++
          [displayChar (s.buffer row) 0, displayChar (s.buffer row) 1,
            displayChar (s.buffer row) 2, displayChar (s.buffer row) 3]) ∧
    ((Vblank K cur mem s).state.key_delta &&& KEY_START K = 0 →
      ((Vblank K cur mem s).state.key_delta &&& KEY_R K ≠ 0 ∨
        (Vblank K cur mem s).state.key_delta &&& KEY_L K ≠ 0) →
      (Vblank K cur mem s).output =
        igotoxy 1 0 ++ statusLine (Vblank K cur mem s).state ++
          (refresh_display (Vblank K cur mem s).state).2) := by
  rw [Vblank_key_delta] at hA hB
  simp only [Vblank_key_delta]
  have hbuf : (Vblank K cur mem s).state.buffer = s.buffer := by
    rw [Vblank_buffer, beforeStart_buffer, beforeA_buffer]
    simp [hA, hB]
  refine ⟨fun i => by rw [hbuf], fun row => by rw [specLine, hbuf], ?_⟩
  intro hS hRL
  rw [Vblank_output K cur mem s hS, if_pos]
  rw [beforeStart_update_iff]
  rcases hRL with h | h
  · exact Or.inr (Or.inr (Or.inr (Or.inl h)))
  · exact Or.inr (Or.inr (Or.inr (Or.inr h)))

/-- C20 at a concrete tick: R, Up and Select pressed together after a snapshot
left words in the buffer. -/
theorem buffer_frame_witness :
    (Vblank ndsKeys 324 (fun a => a)
      { zeroState with buffer := fun j => 7 * j.val }).state.key_delta &&&
        KEY_A ndsKeys = 0 ∧
    (Vblank ndsKeys 324 (fun a => a)
      { zeroState with buffer := fun j => 7 * j.val }).state.key_delta &&&
        KEY_B ndsKeys = 0 ∧
    (Vblank ndsKeys 324 (fun a => a)
      { zeroState with buffer := fun j => 7 * j.val }).state.buffer 5 =
        ({ zeroState with buffer := fun j => 7 * j.val } : State).buffer 5 ∧
    (Vblank ndsKeys 324 (fun a => a)
      { zeroState with buffer := fun j => 7 * j.val }).state.base_address = 0x11 :=
  ⟨by decide, by decide,
    (buffer_frame ndsKeys { zeroState with buffer := fun j => 7 * j.val } 324 (fun a => a)
      (by decide) (by decide)).1 5,
    by decide⟩

end NdsMmap
